import Mathlib

/-!
# kt-logger-go: the log output subject

A shallow embedding of `logOutputSubject.go`: the argument renderer
(`isASCII`, `convertStringIfNotASCII`, `convertLogLine`) and the observer
registry with its broadcast (`AddObserver`, `RemoveObserver`,
`ClearObservers`, `Output`). The relay of package `pipes`, of which only the
tests are at hand, is modelled from the specification.

Go values are embedded as follows.
* A byte is a `Fin 256`; a Go string and a byte slice are lists of bytes.
* An interface value is `none` for the nil interface. A `Formatter` that is
  not nil is a reference to a formatter object. An `io.Writer` that is not
  nil is a dynamic type with a dynamic value, and two of them are compared
  by the rule of the language for `==` on interface values, which panics on
  a non-comparable dynamic type.
* The behaviour of the formatter and writer objects lives in an environment
  `Env σ` over a world state `σ` that the calls may read and change; a call
  returns or panics.
* A run-time panic of the Go code is an `Except.error`, which carries what
  the panic left behind.
* The reader/writer lock is not part of the embedding: every operation runs
  alone, from start to end.
-/

namespace logger

/-! ## Bytes and strings -/

/-- A Go `byte`. -/
abbrev Byte := Fin 256

/-- A Go `string`: a sequence of bytes. -/
abbrev GoString := List Byte

/-- The bytes of a Lean string literal whose characters are all below 256. -/
def lit (s : String) : GoString :=
  s.toList.map (fun c => Fin.ofNat c.toNat)

/-! ## The argument renderer -/

/-- Constant `ASCIISpace = byte(' ')`. -/
def ASCIISpace : Byte := 0x20

/-- Constant `ASCIITab = byte('\t')`. -/
def ASCIITab : Byte := 0x09

/-- Constant `ASCIILineFeed = byte('\r')`. -/
def ASCIILineFeed : Byte := 0x0D

/-- Constant `ASCIINewLine = byte('\n')`. -/
def ASCIINewLine : Byte := 0x0A

/-- Constant `utf8.RuneSelf = 0x80` of the Go standard library. -/
def utf8.RuneSelf : Byte := 0x80

/-- Function `isASCII`: the loop over the bytes of `data`, as a recursion over
the bytes that are left. -/
def isASCII : GoString → Bool
  | [] => true
  | c :: rest =>
    if c ≥ utf8.RuneSelf then false
    else if c ≥ ASCIISpace then isASCII rest
    else if c = ASCIITab ∨ c = ASCIILineFeed ∨ c = ASCIINewLine then isASCII rest
    else false

/-- Function `convertStringIfNotASCII`. -/
def convertStringIfNotASCII (byteHandler : List Byte → GoString) (data : GoString) : GoString :=
  if isASCII data then data else byteHandler data

/-- One digit of the table `0123456789abcdef` of the Go package `encoding/hex`. -/
def hextable (n : Nat) : Byte :=
  if n < 10 then Fin.ofNat (48 + n) else Fin.ofNat (87 + n)

/-- Modelled from the spec: the default value of the package variable
`displayByteSlice` (its declaration is not among the sources), which renders
a byte sequence as lowercase hexadecimal, two digits per byte, as
`hex.EncodeToString` does. -/
def hex.EncodeToString (src : List Byte) : GoString :=
  src.flatMap (fun v => [hextable (v.val / 16), hextable (v.val % 16)])

/-- The decimal digits of a natural number, as `strconv` prints them. -/
def fmtNat (v : Nat) : GoString :=
  (Nat.toDigits 10 v).map (fun c => Fin.ofNat c.toNat)

/-- The loop of `fmtFrac` in the Go package `time`: `acc` is the filled tail of
the buffer. -/
def fmtFrac.loop : Nat → Nat → Bool → GoString → Nat × Bool × GoString
  | 0, v, print, acc => (v, print, acc)
  | prec + 1, v, print, acc =>
    let digit := v % 10
    let print := print || digit != 0
    let acc := if print then Fin.ofNat (digit + 48) :: acc else acc
    fmtFrac.loop prec (v / 10) print acc

/-- Function `fmtFrac` of the Go package `time`: writes the fraction of
`v / 10^prec` in front of `acc`, without trailing zeros, and returns
`v / 10^prec`. -/
def fmtFrac (acc : GoString) (v prec : Nat) : GoString × Nat :=
  match fmtFrac.loop prec v false acc with
  | (v, print, acc) => (if print then (46 : Byte) :: acc else acc, v)

/-- Method `Duration.String` of the Go package `time`, on a duration of `d`
nanoseconds. -/
def Duration.String (d : Int) : GoString :=
  let u := d.natAbs
  let body : GoString :=
    if u < 1000000000 then
      if u = 0 then lit "0s"
      else if u < 1000 then
        let r := fmtFrac (lit "ns") u 0
        fmtNat r.2 ++ r.1
      else if u < 1000000 then
        let r := fmtFrac ([0xC2, 0xB5] ++ lit "s") u 3
        fmtNat r.2 ++ r.1
      else
        let r := fmtFrac (lit "ms") u 6
        fmtNat r.2 ++ r.1
    else
      let r := fmtFrac (lit "s") u 9
      let secs := fmtNat (r.2 % 60) ++ r.1
      let u := r.2 / 60
      if u > 0 then
        let mins := fmtNat (u % 60) ++ lit "m" ++ secs
        let u := u / 60
        if u > 0 then fmtNat u ++ lit "h" ++ mins else mins
      else secs
  if d < 0 then lit "-" ++ body else body

/-- A value of type `interface{}` passed as a log argument. -/
inductive Arg where
  | bytes (b : List Byte)
  | string (s : GoString)
  | bool (b : Bool)
  | int (n : Int)
  | error (msg : GoString)
  | duration (ns : Int)
  | nil
deriving DecidableEq, Repr

/-- The call `fmt.Sprintf("%v", obj)` of the Go standard library, on the
argument kinds of the embedding. -/
def fmt.SprintfV : Arg → GoString
  | .bytes b => lit "[" ++ (List.intersperse (lit " ") (b.map (fun v => fmtNat v.val))).flatten ++ lit "]"
  | .string s => s
  | .bool b => if b then lit "true" else lit "false"
  | .int n => if n < 0 then lit "-" ++ fmtNat n.natAbs else fmtNat n.natAbs
  | .error msg => msg
  | .duration ns => Duration.String ns
  | .nil => lit "<nil>"

/-- Modelled from the spec: the type `proto.LogCorrelationMessage` (its
declaration is not among the sources), a correlation token that the engine
only copies. -/
structure LogCorrelationMessage where
  token : GoString
deriving DecidableEq, Repr

/-- A `time.Time`: seconds since the Unix epoch and nanoseconds within the
second. -/
structure Time where
  sec : Int
  nsec : Fin 1000000000
deriving DecidableEq, Repr

/-- The conversion of an integer to `int64`, with wrap-around. -/
def toInt64 (x : Int) : Int :=
  (x + 2 ^ 63) % 2 ^ 64 - 2 ^ 63

/-- Method `Time.UnixNano` of the Go package `time`. -/
def Time.UnixNano (t : Time) : Int :=
  toInt64 (t.sec * 1000000000 + t.nsec.val)

/-- The type `LogLevel`, a `uint8`. -/
abbrev LogLevel := Fin 256

/-- The struct `LogLine`. -/
structure LogLine where
  LoggerName : GoString
  Correlation : LogCorrelationMessage
  Message : GoString
  LogLevel : LogLevel
  Args : List Arg
  Timestamp : Time
deriving DecidableEq, Repr

/-- The struct `LogLineWrapper`, the converted line. -/
structure LogLineWrapper where
  LoggerName : GoString
  Correlation : LogCorrelationMessage
  Message : GoString
  LogLevel : Int
  Args : List GoString
  Timestamp : Int
deriving DecidableEq, Repr

/-- The interface `LogLineHandler`: nil, or a converted line. -/
abbrev LogLineHandler := Option LogLineWrapper

/-- The body of the loop over `logLine.Args` in `convertLogLine`. -/
def convertArg (displayHandler : List Byte → GoString) : Arg → GoString
  | .bytes obj => displayHandler obj
  | .string obj => convertStringIfNotASCII displayHandler obj
  | obj => fmt.SprintfV obj

/-- Method `convertLogLine`; `displayHandler` is the value read from the
package variable `displayByteSlice`. -/
def convertLogLine (displayHandler : List Byte → GoString) : Option LogLine → LogLineHandler
  | none => none
  | some logLine =>
    some
      { LoggerName := logLine.LoggerName
        Correlation := logLine.Correlation
        Message := logLine.Message
        LogLevel := (logLine.LogLevel.val : Int)
        Args := logLine.Args.map (convertArg displayHandler)
        Timestamp := logLine.Timestamp.UnixNano }

/-! ## The observer registry -/

/-- The dynamic type of a value held by an interface: a number that names the
type, and whether the language can compare two values of the type with `==`
(a pointer type can, a struct type with a slice field cannot). -/
structure DynType where
  id : Nat
  comparable : Bool
deriving DecidableEq, Repr

/-- A value of the interface type `io.Writer` that is not nil: its dynamic type
and its dynamic value, which for a pointer type is the address. -/
structure WriterValue where
  dynType : DynType
  value : Nat
deriving DecidableEq, Repr

/-- The interface `io.Writer`: nil, or a writer value. -/
abbrev Writer := Option WriterValue

/-- The interface `Formatter`: nil, or a reference to a formatter object. -/
abbrev Formatter := Option Nat

/-- The errors of `errors.go` that the registry returns. -/
inductive Error where
  | ErrNilWriter
  | ErrNilFormatter
  | ErrWriterNotFound
deriving DecidableEq, Repr

/-- A run-time panic of the Go code: an index or a slice bound out of range, a
method call on a nil interface, the comparison of two interface values of
one non-comparable dynamic type, or a panic raised inside a formatter or a
writer. -/
inductive RuntimePanic where
  | indexOutOfRange (i len : Nat)
  | sliceBoundsOutOfRange (i len : Nat)
  | nilDereference
  | uncomparable (dynType : Nat)
  | collaborator
deriving DecidableEq, Repr

deriving instance DecidableEq for Except

/-- The comparison `a == b` of two `io.Writer` values, by the rule of the
language: equal when both are nil, or when they have the same dynamic type
and equal dynamic values; when they have the same dynamic type and this type
is not comparable, the comparison panics. -/
def Writer.equal (a b : Writer) : Except RuntimePanic Bool :=
  match a, b with
  | none, none => .ok true
  | none, some _ => .ok false
  | some _, none => .ok false
  | some x, some y =>
    if x.dynType = y.dynType then
      if x.dynType.comparable then .ok (decide (x.value = y.value))
      else .error (.uncomparable x.dynType.id)
    else .ok false

/-- What a call of `Write(p []byte) (n int, err error)` returns: the count and
nil or an error with its message. -/
structure WriteResult where
  n : Int
  err : Option GoString
deriving DecidableEq, Repr

/-- How a call of a method of a formatter or of a writer ends: it returns a
value, or it panics; either way it leaves a world state. -/
inductive Ended (α σ : Type) where
  | returned (a : α) (s : σ)
  | panicked (s : σ)

/-- The objects around the registry: what the methods of each formatter and
writer do on a world state `σ`, and the value of the package variable
`displayByteSlice`. -/
structure Env (σ : Type) where
  displayByteSlice : List Byte → GoString
  formatterIsInterfaceNil : Nat → Bool
  formatterOutput : Nat → LogLineHandler → σ → Ended (List Byte) σ
  writerWrite : WriterValue → List Byte → σ → Ended WriteResult σ

/-- A call that `Output` makes on an observer: what it passed and, when the
call returned, what it got back. -/
inductive Call where
  | format (formatter : Nat) (line : LogLineHandler) (buff : List Byte)
  | write (writer : WriterValue) (p : List Byte) (res : WriteResult)
  | formatPanicked (formatter : Nat) (line : LogLineHandler)
  | writePanicked (writer : WriterValue) (p : List Byte)
deriving DecidableEq, Repr

/-- The struct `logOutputSubject`, without its lock. -/
structure logOutputSubject where
  writers : List Writer
  formatters : List Formatter
deriving DecidableEq, Repr

/-- Function `NewLogOutputSubject`. -/
def NewLogOutputSubject : logOutputSubject :=
  { writers := [], formatters := [] }

/-- The body of the loop of `Output` at index `i`: on the world state and the
calls made so far it reads `formatters[i]`, calls the formatter, and writes
the buffer to `writers[i]`, whose result is dropped. A panic is not
recovered: it ends the loop, with the world state and the calls at that
point. -/
def Output.body {σ : Type} (env : Env σ) (los : logOutputSubject) (convertedLine : LogLineHandler)
    (st : σ × List Call) (i : Nat) : Except (RuntimePanic × (σ × List Call)) (σ × List Call) :=
  match los.formatters[i]? with
  | none => .error (.indexOutOfRange i los.formatters.length, st)
  | some none => .error (.nilDereference, st)
  | some (some format) =>
    match env.formatterOutput format convertedLine st.1 with
    | .panicked s1 =>
      .error (.collaborator, (s1, st.2 ++ [Call.formatPanicked format convertedLine]))
    | .returned buff s1 =>
      match los.writers[i]? with
      | none =>
        .error (.indexOutOfRange i los.writers.length,
          (s1, st.2 ++ [Call.format format convertedLine buff]))
      | some none =>
        .error (.nilDereference, (s1, st.2 ++ [Call.format format convertedLine buff]))
      | some (some w) =>
        match env.writerWrite w buff s1 with
        | .panicked s2 =>
          .error (.collaborator,
            (s2, st.2 ++ [Call.format format convertedLine buff, Call.writePanicked w buff]))
        | .returned res s2 =>
          .ok (s2, st.2 ++ [Call.format format convertedLine buff, Call.write w buff res])

/-- Method `Output`: converts the line, then runs the loop body for
`i = 0, ..., len(writers) - 1`. It returns the new world state and the calls
made, in order, or the panic that stopped it with the world state and the
calls made until then. -/
def Output {σ : Type} (env : Env σ) (los : logOutputSubject) (line : Option LogLine) (s : σ) :
    Except (RuntimePanic × (σ × List Call)) (σ × List Call) :=
  let convertedLine := convertLogLine env.displayByteSlice line
  (List.range los.writers.length).foldlM (Output.body env los convertedLine) (s, [])

/-- Function `check.IfNil` of the core library, on a formatter: true for the nil
interface and for an object whose `IsInterfaceNil` method returns true. -/
def check.IfNil {σ : Type} (env : Env σ) : Formatter → Bool
  | none => true
  | some f => env.formatterIsInterfaceNil f

/-- Method `AddObserver`: the returned error (`none` is the nil error) and the
subject after the call. -/
def AddObserver {σ : Type} (env : Env σ) (los : logOutputSubject) (w : Writer) (format : Formatter) :
    Option Error × logOutputSubject :=
  if w = none then (some .ErrNilWriter, los)
  else if check.IfNil env format then (some .ErrNilFormatter, los)
  else (none, { writers := los.writers ++ [w], formatters := los.formatters ++ [format] })

/-- The loop of `RemoveObserver`, at index `i` with `rest = writers[i:]`: the
first writer for which `los.writers[i] == w` holds is cut out of both lists.
The comparison panics on two values of one non-comparable dynamic type, and
the slice expressions on `formatters` panic when `i + 1` exceeds its length,
after `writers` has been assigned. A panic comes with the subject as it is
then. -/
def RemoveObserver.loop (los : logOutputSubject) (w : Writer) :
    List Writer → Nat →
      Except (RuntimePanic × logOutputSubject) (Option Error × logOutputSubject)
  | [], _ => .ok (some .ErrWriterNotFound, los)
  | x :: rest, i =>
    match Writer.equal x w with
    | .error p => .error (p, los)
    | .ok true =>
      if i + 1 ≤ los.formatters.length then
        .ok (none,
          { writers := los.writers.take i ++ los.writers.drop (i + 1)
            formatters := los.formatters.take i ++ los.formatters.drop (i + 1) })
      else
        .error (.sliceBoundsOutOfRange (i + 1) los.formatters.length,
          { writers := los.writers.take i ++ los.writers.drop (i + 1)
            formatters := los.formatters })
    | .ok false => RemoveObserver.loop los w rest (i + 1)

/-- Method `RemoveObserver`: the returned error (`none` is the nil error) and
the subject after the call, or the panic that stopped it and the subject it
left. -/
def RemoveObserver (los : logOutputSubject) (w : Writer) :
    Except (RuntimePanic × logOutputSubject) (Option Error × logOutputSubject) :=
  if w = none then .ok (some .ErrNilWriter, los)
  else RemoveObserver.loop los w los.writers 0

/-- Method `ClearObservers`. -/
def ClearObservers (_los : logOutputSubject) : logOutputSubject :=
  { writers := [], formatters := [] }

/-! ## Notions used to state the properties -/

/-- A subject whose two lists hold pairs: equal lengths and no nil entry. -/
def logOutputSubject.WellFormed (los : logOutputSubject) : Prop :=
  los.writers.length = los.formatters.length ∧ none ∉ los.writers ∧ none ∉ los.formatters

instance (los : logOutputSubject) : Decidable los.WellFormed := by
  unfold logOutputSubject.WellFormed; infer_instance

/-- An environment in which every call of a formatter and of a writer returns. -/
def Env.Returns {σ : Type} (env : Env σ) : Prop :=
  (∀ f line s, ∃ buff s1, env.formatterOutput f line s = Ended.returned buff s1) ∧
  (∀ w p s, ∃ res s1, env.writerWrite w p s = Ended.returned res s1)

/-- Whether a call is a formatter call. -/
def Call.isFormat : Call → Bool
  | .format _ _ _ => true
  | .formatPanicked _ _ => true
  | _ => false

/-- Whether a call is a writer call. -/
def Call.isWrite : Call → Bool
  | .write _ _ _ => true
  | .writePanicked _ _ => true
  | _ => false

/-- The world state before round `i` of the loop of `Output` that starts in
the world state `s`: each round passes the state through the formatter call
and then through the writer call of its pair. -/
def Output.worldAt {σ : Type} (env : Env σ) (los : logOutputSubject) (cl : LogLineHandler)
    (s : σ) : Nat → σ
  | 0 => s
  | i + 1 =>
    match los.formatters[i]?, los.writers[i]? with
    | some (some f), some (some w) =>
      match env.formatterOutput f cl (Output.worldAt env los cl s i) with
      | .panicked s1 => s1
      | .returned buff s1 =>
        match env.writerWrite w buff s1 with
        | .panicked s2 => s2
        | .returned _ s2 => s2
    | _, _ => Output.worldAt env los cl s i

/-- The calls that the loop of `Output` has made after `k` rounds from the
world state `s`, with the world state `st i` before each round `i`: round `i`
calls the formatter of pair `i` on the converted line `cl` in the state
`st i`, then the writer of pair `i` on the bytes that this call returned, in
the state that this call left, and the state that the writer call leaves is
`st (i + 1)`. -/
def Output.Made {σ : Type} (env : Env σ) (los : logOutputSubject) (cl : LogLineHandler)
    (s : σ) (k : Nat) (s1 : σ) (calls : List Call) (st : Nat → σ) : Prop :=
  calls.length = 2 * k ∧ calls.countP Call.isFormat = k ∧ calls.countP Call.isWrite = k ∧
  st 0 = s ∧ st k = s1 ∧
  ∀ i, i < k → ∃ f w buff sf res,
    los.formatters[i]? = some (some f) ∧ los.writers[i]? = some (some w) ∧
    env.formatterOutput f cl (st i) = Ended.returned buff sf ∧
    env.writerWrite w buff sf = Ended.returned res (st (i + 1)) ∧
    calls[2 * i]? = some (Call.format f cl buff) ∧
    calls[2 * i + 1]? = some (Call.write w buff res)

/-- A sequence of `AddObserver` calls, one per pair and in order: the errors
they returned and the subject after the last call. -/
def AddObserverAll {σ : Type} (env : Env σ) (los : logOutputSubject) :
    List (Writer × Formatter) → List (Option Error) × logOutputSubject
  | [] => ([], los)
  | p :: rest =>
    ((AddObserver env los p.1 p.2).1 :: (AddObserverAll env (AddObserver env los p.1 p.2).2 rest).1,
      (AddObserverAll env (AddObserver env los p.1 p.2).2 rest).2)

/-- The environment in which every `Write` call on writer `w` with payload `p`
that returns, returns `r w p`; the rest is as in `env`. -/
def Env.withWriteResults {σ : Type} (env : Env σ) (r : WriterValue → List Byte → WriteResult) :
    Env σ :=
  { env with
    writerWrite := fun w p s =>
      match env.writerWrite w p s with
      | .returned _ s1 => .returned (r w p) s1
      | .panicked s1 => .panicked s1 }

/-- A writer of a pointer type at address `a`, as `&mock.WriterStub` is. -/
def ptrWriter (a : Nat) : Writer :=
  some { dynType := { id := 0, comparable := true }, value := a }

/-- A writer passed by value whose type is a struct with a slice field, which
the language cannot compare; `v` stands for the content. -/
def sliceWriter (v : Nat) : Writer :=
  some { dynType := { id := 1, comparable := false }, value := v }

/-- An environment in the manner of the test stubs: the world state counts the
calls, formatter `f` returns the one byte `f`, every write on the writer at
address 1 fails and the other writers accept the whole payload, and the
formatter object 0 is a nil pointer under a non-nil interface. -/
def stubEnv : Env Nat where
  displayByteSlice := hex.EncodeToString
  formatterIsInterfaceNil := fun f => f == 0
  formatterOutput := fun f _ s => .returned [Fin.ofNat f] (s + 1)
  writerWrite := fun w p s =>
    .returned
      { n := if w.value = 1 then 0 else p.length
        err := if w.value = 1 then some (lit "closed") else none } (s + 1)

/-- The stub environment with one change: formatter 10 panics when called. -/
def panicEnv : Env Nat :=
  { stubEnv with
    formatterOutput := fun f line s =>
      if f = 10 then .panicked s else stubEnv.formatterOutput f line s }

/-- A subject with four pairs, in which the writer at address 2 is registered
twice. -/
def stubSubject : logOutputSubject :=
  { writers := [ptrWriter 1, ptrWriter 2, ptrWriter 3, ptrWriter 2]
    formatters := [some 10, some 20, some 30, some 40] }

/-- A subject with two pairs: a pointer writer, and a writer of a
non-comparable type. -/
def sliceSubject : logOutputSubject :=
  { writers := [ptrWriter 1, sliceWriter 1]
    formatters := [some 10, some 20] }

/-- A log line in the manner of `TestLogOutputSubject_OutputShouldProduceCorrectString`:
keys and values of the kinds that the renderer tells apart. -/
def stubLine : LogLine :=
  { LoggerName := []
    Correlation := { token := [] }
    Message := lit "message"
    LogLevel := 1
    Args :=
      [ .string (lit "int"), .int 1,
        .string (lit "ASCII string"), .string (lit "plain text \n"),
        .string (lit "non-ASCII string"), .string [0xC3, 0x82, 0xC2, 0xB5, 0x73],
        .string (lit "time.Duration"), .duration 4001,
        .string (lit "byte slice"), .bytes (lit "aaa"),
        .string (lit "error"), .error (lit "an error"),
        .string (lit "bool"), .bool true ]
    Timestamp := { sec := 1648655272, nsec := 0 } }

/-- The log line of `testArgFormat`, whose `Timestamp` is the zero `time.Time`:
January 1 of year 1, which is 62135596800 seconds before the Unix epoch. -/
def zeroTimeLine : LogLine :=
  { LoggerName := []
    Correlation := { token := [] }
    Message := []
    LogLevel := 0
    Args := [.string (lit "test key"), .string (lit "test")]
    Timestamp := { sec := -62135596800, nsec := 0 } }

/-! ## The relay between child and parent (package `pipes`) -/

namespace pipes

/-- Modelled from the spec: the state of the relay loop of a child part (the
file of `ChildPart` is not among the sources, only its tests are): `Idle`
after construction, then `Running`, then `Stopped`. -/
inductive LoopState where
  | Idle
  | Running
  | Stopped
deriving DecidableEq, Repr

/-- The error `ErrInvalidOperationGivenPartLoopState` that the tests of the
child part expect. -/
inductive Error where
  | ErrInvalidOperationGivenPartLoopState
deriving DecidableEq, Repr

/-- Modelled from the spec: the loop state of a part that `NewChildPart` has
just built (the function is not among the sources), which is `Idle`. -/
def NewChildPart : LoopState := .Idle

/-- Modelled from the spec: method `StartLoop` (not among the sources), valid
only from `Idle`, where it moves to `Running`; called while `Running` or once
`Stopped` it returns the invalid loop state error and changes no state. The
reader task that it launches is not modelled. -/
def StartLoop : LoopState → Option Error × LoopState
  | .Idle => (none, .Running)
  | .Running => (some .ErrInvalidOperationGivenPartLoopState, .Running)
  | .Stopped => (some .ErrInvalidOperationGivenPartLoopState, .Stopped)

/-- Modelled from the spec: method `StopLoop` (not among the sources), valid
only from `Running`, where it moves to `Stopped`; called in another state it
does nothing. -/
def StopLoop : LoopState → LoopState
  | .Running => .Stopped
  | s => s

/-- A call on the loop of a child part. -/
inductive LoopCall where
  | start
  | stop
deriving DecidableEq, Repr

/-- The loop state after a sequence of calls, in order. -/
def runCalls : LoopState → List LoopCall → LoopState
  | s, [] => s
  | s, .start :: rest => runCalls (StartLoop s).2 rest
  | s, .stop :: rest => runCalls (StopLoop s) rest

/-- Modelled from the spec: a pluggable marshaller, one function from a value
to bytes and one from bytes to a value or a failure. The marshaller of the
tests is the JSON marshaller of the core library. -/
structure Marshaller (α : Type) where
  Marshal : α → List Byte
  Unmarshal : List Byte → Option α

/-- Modelled from the spec: the two failures of a decode (the messenger files
are not among the sources); the malformed frame error keeps the raw payload. -/
inductive FrameError where
  | IncompleteFrame
  | MalformedFrame (raw : List Byte)
deriving DecidableEq, Repr

/-- Modelled from the spec: the diagnostic text of a frame error, which for a
malformed frame embeds the raw payload. -/
def FrameError.Error : FrameError → GoString
  | .IncompleteFrame => lit "incomplete frame"
  | .MalformedFrame raw => lit "cannot unmarshal, raw: " ++ raw

/-- Modelled from the spec: reading the bytes up to and including the next
delimiter: the payload before the delimiter and the stream after it, or
`none` when the stream ends before a delimiter. -/
def readFrame (delim : Byte) : List Byte → Option (List Byte × List Byte)
  | [] => none
  | c :: rest =>
    if c = delim then some ([], rest)
    else
      match readFrame delim rest with
      | none => none
      | some (p, r) => some (c :: p, r)

/-- Modelled from the spec: encoding a value to a frame: the marshalled bytes,
then the delimiter. -/
def Encode {α : Type} (m : Marshaller α) (delim : Byte) (v : α) : List Byte :=
  m.Marshal v ++ [delim]

/-- Modelled from the spec: method `ReadLogLine` of the parent messenger (not
among the sources) on the bytes of the log pipe: it reads one frame and
unmarshals its payload. It returns the value or the failure, and the stream
that is left. -/
def ReadLogLine {α : Type} (m : Marshaller α) (delim : Byte) (stream : List Byte) :
    Except FrameError α × List Byte :=
  match readFrame delim stream with
  | none => (.error .IncompleteFrame, [])
  | some (payload, rest) =>
    match m.Unmarshal payload with
    | none => (.error (.MalformedFrame payload), rest)
    | some v => (.ok v, rest)

/-- A toy marshaller for the examples: a logger name and a message between
braces, with a colon between them. -/
def stubMarshaller : Marshaller (GoString × GoString) where
  Marshal := fun v => lit "\x7b" ++ v.1 ++ lit ":" ++ v.2 ++ lit "\x7d"
  Unmarshal := fun p =>
    match p with
    | [] => none
    | c :: rest =>
      if c = 0x7B ∧ rest.getLast? = some 0x7D ∧ (0x3A : Byte) ∈ rest then
        some (rest.takeWhile (fun x => x != 0x3A),
          ((rest.dropWhile (fun x => x != 0x3A)).drop 1).dropLast)
      else none

end pipes

/-! ## Sequences of calls on a subject -/

/-- A call on a subject: one of its four exported methods with its arguments. -/
inductive Op where
  | add (w : Writer) (format : Formatter)
  | remove (w : Writer)
  | clear
  | output (line : Option LogLine)
deriving DecidableEq, Repr

/-- One call on a subject in a world state: the subject and the world state
after the call, however the call ended. The error that `AddObserver` or
`RemoveObserver` returns is dropped, so failing calls count as calls, and
after a panic the caller goes on with the subject and the world state that
the panic left. -/
def applyOp {σ : Type} (env : Env σ) (st : logOutputSubject × σ) : Op → logOutputSubject × σ
  | .add w format => ((AddObserver env st.1 w format).2, st.2)
  | .remove w =>
    match RemoveObserver st.1 w with
    | .error e => (e.2, st.2)
    | .ok r => (r.2, st.2)
  | .clear => (ClearObservers st.1, st.2)
  | .output line =>
    match Output env st.1 line st.2 with
    | .error e => (st.1, e.2.1)
    | .ok r => (st.1, r.1)

/-- A sequence of calls, in order. -/
def runOps {σ : Type} (env : Env σ) (st : logOutputSubject × σ) (ops : List Op) :
    logOutputSubject × σ :=
  ops.foldl (applyOp env) st

/-- The table of `TestIsASCII`: several lines drawn with `+`, `-` and `|`. -/
def tableString : String :=
  "\n+---------+---------+\n| header1 | header2 |\n+---------+---------+\n| aaa     | bbb     |\n| ccc     | ddd     |\n+---------+---------+\n| eee     | fff     |\n+---------+---------+\n"

/-- The bytes `uglyBytes` of `TestLogOutputSubject_variousTypesOfStrings`. -/
def uglyBytes : List Byte := [0, 5, 17, 19, 127]

/-! ## Lemmas on the loop of `Output` -/

theorem getElem?_some_of_not_mem_none {α : Type} (l : List (Option α)) (h : none ∉ l)
    (i : Nat) (hi : i < l.length) : ∃ a, l[i]? = some (some a) := by
  have hmem : l[i] ∈ l := List.getElem_mem hi
  cases hx : l[i] with
  | none => rw [hx] at hmem; exact absurd hmem h
  | some a => exact ⟨a, by rw [List.getElem?_eq_getElem hi, hx]⟩

theorem foldlM_range_succ {ε α : Type} (f : α → Nat → Except ε α) (a : α) (k : Nat) :
    (List.range (k + 1)).foldlM f a =
      match (List.range k).foldlM f a with
      | Except.error e => Except.error e
      | Except.ok b => f b k := by
  rw [List.range_succ, List.foldlM_append]
  cases (List.range k).foldlM f a with
  | error e => rfl
  | ok b =>
    show [k].foldlM f b = f b k
    rw [List.foldlM_cons]
    cases f b k <;> rfl

theorem Output.loop_made {σ : Type} (env : Env σ) (los : logOutputSubject) (cl : LogLineHandler)
    (s : σ) (h : los.WellFormed) (hret : env.Returns) :
    ∀ k, k ≤ los.writers.length →
      ∃ calls,
        (List.range k).foldlM (Output.body env los cl) (s, []) =
          Except.ok (Output.worldAt env los cl s k, calls) ∧
        Output.Made env los cl s k (Output.worldAt env los cl s k) calls
          (Output.worldAt env los cl s) := by
  intro k
  induction k with
  | zero =>
    intro _
    refine ⟨[], rfl, ?_⟩
    simp [Output.Made, Output.worldAt]
  | succ k ih =>
    intro hk
    obtain ⟨calls, hrun, hlen, hcf, hcw, h0, _, hat⟩ := ih (by omega)
    obtain ⟨f, hf⟩ := getElem?_some_of_not_mem_none los.formatters h.2.2 k (by rw [← h.1]; omega)
    obtain ⟨w, hw⟩ := getElem?_some_of_not_mem_none los.writers h.2.1 k (by omega)
    obtain ⟨buff, sf, hfo⟩ := hret.1 f cl (Output.worldAt env los cl s k)
    obtain ⟨res, s2, hwr⟩ := hret.2 w buff sf
    have hnext : Output.worldAt env los cl s (k + 1) = s2 := by
      simp only [Output.worldAt, hf, hw, hfo, hwr]
    refine ⟨calls ++ [Call.format f cl buff, Call.write w buff res], ?_, ?_⟩
    · rw [foldlM_range_succ, hrun, hnext]
      simp [Output.body, hf, hw, hfo, hwr]
    · refine ⟨by simp [hlen]; omega,
        by simp [List.countP_append, hcf, Call.isFormat, List.countP_cons],
        by simp [List.countP_append, hcw, Call.isWrite, List.countP_cons], h0, rfl, ?_⟩
      intro i hi
      rcases Nat.lt_succ_iff_lt_or_eq.mp hi with hlt | heq
      · obtain ⟨f1, w1, b1, sf1, r1, h1, h2, h3, h4, h5, h6⟩ := hat i hlt
        refine ⟨f1, w1, b1, sf1, r1, h1, h2, h3, h4, ?_, ?_⟩
        · rw [List.getElem?_append_left (by omega)]; exact h5
        · rw [List.getElem?_append_left (by omega)]; exact h6
      · subst heq
        refine ⟨f, w, buff, sf, res, hf, hw, hfo, by rw [hnext]; exact hwr, ?_, ?_⟩
        · rw [List.getElem?_append_right (by omega)]; simp [hlen]
        · rw [List.getElem?_append_right (by omega)]; simp [hlen]

theorem Output.made {σ : Type} (env : Env σ) (los : logOutputSubject) (line : Option LogLine)
    (s : σ) (h : los.WellFormed) (hret : env.Returns) :
    ∃ s1 calls st, Output env los line s = Except.ok (s1, calls) ∧
      Output.Made env los (convertLogLine env.displayByteSlice line) s los.writers.length s1 calls
        st := by
  obtain ⟨calls, hrun, hmade⟩ :=
    Output.loop_made env los (convertLogLine env.displayByteSlice line) s h hret
      los.writers.length (Nat.le_refl _)
  exact ⟨_, calls, _, hrun, hmade⟩

theorem Output.first_formatter_panics {σ : Type} (env : Env σ) (los : logOutputSubject)
    (line : Option LogLine) (s s1 : σ) (f : Nat) (hn : 0 < los.writers.length)
    (hf : los.formatters[0]? = some (some f))
    (hp : env.formatterOutput f (convertLogLine env.displayByteSlice line) s = Ended.panicked s1) :
    Output env los line s =
      Except.error (RuntimePanic.collaborator,
        (s1, [Call.formatPanicked f (convertLogLine env.displayByteSlice line)])) := by
  obtain ⟨n, hn1⟩ : ∃ n, los.writers.length = n + 1 := ⟨los.writers.length - 1, by omega⟩
  unfold Output
  rw [hn1, List.range_succ_eq_map, List.foldlM_cons]
  simp [Output.body, hf, hp]
  rfl

theorem Output.only_collaborator_panics {σ : Type} (env : Env σ) (los : logOutputSubject)
    (cl : LogLineHandler) (h : los.WellFormed) :
    ∀ k, k ≤ los.writers.length → ∀ (st0 : σ × List Call) (p : RuntimePanic) (e : σ × List Call),
      (List.range k).foldlM (Output.body env los cl) st0 = Except.error (p, e) →
      p = RuntimePanic.collaborator := by
  intro k
  induction k with
  | zero => intro _ st0 p e hrun; simp [List.foldlM] at hrun; cases hrun
  | succ k ih =>
    intro hk st0 p e hrun
    rw [foldlM_range_succ] at hrun
    cases hprev : (List.range k).foldlM (Output.body env los cl) st0 with
    | error e1 =>
      rw [hprev] at hrun
      have he : e1 = (p, e) := Except.error.inj hrun
      exact ih (by omega) st0 p e (by rw [hprev, he])
    | ok st1 =>
      rw [hprev] at hrun
      obtain ⟨f, hf⟩ := getElem?_some_of_not_mem_none los.formatters h.2.2 k (by rw [← h.1]; omega)
      obtain ⟨w, hw⟩ := getElem?_some_of_not_mem_none los.writers h.2.1 k (by omega)
      have hbody : Output.body env los cl st1 k = Except.error (p, e) := hrun
      simp only [Output.body, hf, hw] at hbody
      cases hfo : env.formatterOutput f cl st1.1 with
      | panicked s1 =>
        simp [hfo] at hbody
        exact hbody.1.symm
      | returned buff s1 =>
        cases hwr : env.writerWrite w buff s1 with
        | panicked s2 =>
          simp [hfo, hwr] at hbody
          exact hbody.1.symm
        | returned res s2 =>
          simp [hfo, hwr] at hbody

/-! ## Lemmas on the loop of `RemoveObserver` -/

theorem Writer.equal_comparable (x : Writer) (v : WriterValue) (hv : v.dynType.comparable = true) :
    Writer.equal x (some v) = Except.ok (decide (x = some v)) := by
  cases x with
  | none => simp [Writer.equal]
  | some y =>
    by_cases ht : y.dynType = v.dynType
    · have hy : y.dynType.comparable = true := by rw [ht]; exact hv
      by_cases hval : y.value = v.value
      · have : y = v := by
          cases y; cases v; simp_all
        simp [Writer.equal, ht, hv, this]
      · have : y ≠ v := fun e => hval (by rw [e])
        simp [Writer.equal, ht, hv, hval, this]
    · have : y ≠ v := fun e => ht (by rw [e])
      simp [Writer.equal, ht, this]

theorem RemoveObserver.loop_not_found (los : logOutputSubject) (v : WriterValue)
    (hv : v.dynType.comparable = true) :
    ∀ (rest : List Writer) (i : Nat), some v ∉ rest →
      RemoveObserver.loop los (some v) rest i = Except.ok (some Error.ErrWriterNotFound, los) := by
  intro rest
  induction rest with
  | nil => intro i _; rfl
  | cons x rest ih =>
    intro i h
    have hx : x ≠ some v := fun e => h (by simp [e])
    have hr : some v ∉ rest := fun e => h (by simp [e])
    simp [RemoveObserver.loop, Writer.equal_comparable x v hv, hx, ih (i + 1) hr]

theorem RemoveObserver.loop_found (los : logOutputSubject) (v : WriterValue)
    (hv : v.dynType.comparable = true) (hlen : los.writers.length = los.formatters.length) :
    ∀ (rest pre : List Writer) (i : Nat), los.writers = pre ++ rest → pre.length = i →
      some v ∉ pre → some v ∈ rest →
      ∃ j, j < los.writers.length ∧ los.writers[j]? = some (some v) ∧
        (∀ k, k < j → los.writers[k]? ≠ some (some v)) ∧
        RemoveObserver.loop los (some v) rest i = Except.ok (none,
          { writers := los.writers.take j ++ los.writers.drop (j + 1)
            formatters := los.formatters.take j ++ los.formatters.drop (j + 1) }) := by
  intro rest
  induction rest with
  | nil => intro pre i _ _ _ h; simp at h
  | cons x rest ih =>
    intro pre i hsplit hi hpre hmem
    by_cases hx : x = some v
    · subst hx
      have hlt : i < los.writers.length := by rw [hsplit]; simp; omega
      refine ⟨i, hlt, ?_, ?_, ?_⟩
      · rw [hsplit, ← hi, List.getElem?_append_right (Nat.le_refl _)]; simp
      · intro k hk hcontra
        rw [hsplit, List.getElem?_append_left (by omega)] at hcontra
        exact hpre (List.getElem?_mem hcontra)
      · have : i + 1 ≤ los.formatters.length := by omega
        simp [RemoveObserver.loop, Writer.equal_comparable _ v hv, this]
    · have hmem2 : some v ∈ rest := by
        rcases List.mem_cons.mp hmem with e | e
        · exact absurd e.symm hx
        · exact e
      have hpre2 : some v ∉ pre ++ [x] := by
        simp only [List.mem_append, List.mem_singleton, not_or]
        exact ⟨hpre, fun e => hx e.symm⟩
      obtain ⟨j, h1, h2, h3, h4⟩ :=
        ih (pre ++ [x]) (i + 1) (by simp [hsplit]) (by simp [hi]) hpre2 hmem2
      refine ⟨j, h1, h2, h3, ?_⟩
      simp [RemoveObserver.loop, Writer.equal_comparable x v hv, hx, h4]

theorem RemoveObserver.found (los : logOutputSubject) (v : WriterValue)
    (hv : v.dynType.comparable = true)
    (hlen : los.writers.length = los.formatters.length) (hw : some v ∈ los.writers) :
    ∃ j, j < los.writers.length ∧ los.writers[j]? = some (some v) ∧
      (∀ k, k < j → los.writers[k]? ≠ some (some v)) ∧
      RemoveObserver los (some v) = Except.ok (none,
        { writers := los.writers.take j ++ los.writers.drop (j + 1)
          formatters := los.formatters.take j ++ los.formatters.drop (j + 1) }) := by
  obtain ⟨j, h1, h2, h3, h4⟩ :=
    RemoveObserver.loop_found los v hv hlen los.writers [] 0 rfl rfl (by simp) hw
  exact ⟨j, h1, h2, h3, by simp [RemoveObserver, h4]⟩

theorem RemoveObserver.not_found (los : logOutputSubject) (v : WriterValue)
    (hv : v.dynType.comparable = true) (hw : some v ∉ los.writers) :
    RemoveObserver los (some v) = Except.ok (some Error.ErrWriterNotFound, los) := by
  simp [RemoveObserver, RemoveObserver.loop_not_found los v hv los.writers 0 hw]

theorem RemoveObserver.loop_cases (los : logOutputSubject) (w : Writer)
    (hlen : los.writers.length = los.formatters.length) :
    ∀ (rest : List Writer) (i : Nat), i + rest.length = los.writers.length →
      RemoveObserver.loop los w rest i = Except.ok (some Error.ErrWriterNotFound, los) ∨
      (∃ j, j < los.writers.length ∧
        RemoveObserver.loop los w rest i = Except.ok (none,
          { writers := los.writers.take j ++ los.writers.drop (j + 1)
            formatters := los.formatters.take j ++ los.formatters.drop (j + 1) })) ∨
      ∃ t, RemoveObserver.loop los w rest i = Except.error (RuntimePanic.uncomparable t, los) := by
  intro rest
  induction rest with
  | nil => intro i _; exact Or.inl rfl
  | cons x rest ih =>
    intro i hi
    simp only [List.length_cons] at hi
    cases hc : Writer.equal x w with
    | error p =>
      refine Or.inr (Or.inr ?_)
      have hp : ∃ t, p = RuntimePanic.uncomparable t := by
        cases x with
        | none => cases w <;> simp [Writer.equal] at hc
        | some a =>
          cases w with
          | none => simp [Writer.equal] at hc
          | some b =>
            simp only [Writer.equal] at hc
            split at hc
            · split at hc
              · cases hc
              · exact ⟨_, (Except.error.inj hc).symm⟩
            · cases hc
      obtain ⟨t, ht⟩ := hp
      exact ⟨t, by simp [RemoveObserver.loop, hc, ht]⟩
    | ok b =>
      cases b with
      | true =>
        refine Or.inr (Or.inl ⟨i, by omega, ?_⟩)
        have : i + 1 ≤ los.formatters.length := by omega
        simp [RemoveObserver.loop, hc, this]
      | false =>
        have := ih (i + 1) (by omega)
        simpa [RemoveObserver.loop, hc] using this

/-! ## The broadcast -/

/-- C1: for every subject holding N (writer, formatter) pairs, every log line
and every world state, when the calls of the formatters and writers return,
`Output` returns after exactly N formatter calls and N writer calls, made
pair by pair in registration order. Round `i` calls the formatter of pair `i`
on the one converted line, in the world state `st i` that the rounds before
it left, and then the writer of pair `i` on the bytes that this formatter
call returned, in the world state that this call left; the world state that
the last round leaves is the one that `Output` leaves. -/
theorem Output_calls_each_pair_in_order {σ : Type} (env : Env σ) (los : logOutputSubject)
    (line : Option LogLine) (s : σ) (h : los.WellFormed) (hret : env.Returns) :
    ∃ (s1 : σ) (calls : List Call) (st : Nat → σ), Output env los line s = Except.ok (s1, calls) ∧
      calls.length = 2 * los.writers.length ∧
      calls.countP Call.isFormat = los.writers.length ∧
      calls.countP Call.isWrite = los.writers.length ∧
      st 0 = s ∧ st los.writers.length = s1 ∧
      ∀ i, i < los.writers.length → ∃ f w buff sf res,
        los.formatters[i]? = some (some f) ∧ los.writers[i]? = some (some w) ∧
        env.formatterOutput f (convertLogLine env.displayByteSlice line) (st i) =
          Ended.returned buff sf ∧
        env.writerWrite w buff sf = Ended.returned res (st (i + 1)) ∧
        calls[2 * i]? = some (Call.format f (convertLogLine env.displayByteSlice line) buff) ∧
        calls[2 * i + 1]? = some (Call.write w buff res) :=
  Output.made env los line s h hret

/-- Witness of C1: the stub subject with its four pairs, a nil log line. -/
theorem Output_calls_each_pair_in_order_witness :
    stubSubject.WellFormed ∧ stubEnv.Returns ∧
    ∃ (s1 : Nat) (calls : List Call) (st : Nat → Nat), Output stubEnv stubSubject none 0 = Except.ok (s1, calls) ∧
      calls.length = 2 * stubSubject.writers.length ∧
      calls.countP Call.isFormat = stubSubject.writers.length ∧
      calls.countP Call.isWrite = stubSubject.writers.length ∧
      st 0 = 0 ∧ st stubSubject.writers.length = s1 ∧
      ∀ i, i < stubSubject.writers.length → ∃ f w buff sf res,
        stubSubject.formatters[i]? = some (some f) ∧ stubSubject.writers[i]? = some (some w) ∧
        stubEnv.formatterOutput f (convertLogLine stubEnv.displayByteSlice none) (st i) =
          Ended.returned buff sf ∧
        stubEnv.writerWrite w buff sf = Ended.returned res (st (i + 1)) ∧
        calls[2 * i]? = some (Call.format f (convertLogLine stubEnv.displayByteSlice none) buff) ∧
        calls[2 * i + 1]? = some (Call.write w buff res) :=
  ⟨by decide, ⟨fun _ _ _ => ⟨_, _, rfl⟩, fun _ _ _ => ⟨_, _, rfl⟩⟩,
    Output_calls_each_pair_in_order stubEnv stubSubject none 0 (by decide)
      ⟨fun _ _ _ => ⟨_, _, rfl⟩, fun _ _ _ => ⟨_, _, rfl⟩⟩⟩

/-! ## Removing an observer -/

/-- For a writer of a comparable dynamic type, a pointer for one, that is
registered in a subject whose lists have equal length, `RemoveObserver`
returns no error and cuts out the pair at the first index `i` whose writer
is equal to it: both new lists are the old ones without position `i`, so the
other N-1 pairs keep their order and their pairing. -/
theorem RemoveObserver_removes_first_pair (los : logOutputSubject) (v : WriterValue)
    (hv : v.dynType.comparable = true)
    (hlen : los.writers.length = los.formatters.length) (hw : some v ∈ los.writers) :
    ∃ i los1, i < los.writers.length ∧ los.writers[i]? = some (some v) ∧
      (∀ j, j < i → los.writers[j]? ≠ some (some v)) ∧
      RemoveObserver los (some v) = Except.ok (none, los1) ∧
      los1.writers = los.writers.take i ++ los.writers.drop (i + 1) ∧
      los1.formatters = los.formatters.take i ++ los.formatters.drop (i + 1) ∧
      los1.writers.length = los.writers.length - 1 ∧
      los1.formatters.length = los.writers.length - 1 ∧
      los1.writers.zip los1.formatters =
        (los.writers.zip los.formatters).take i ++ (los.writers.zip los.formatters).drop (i + 1) := by
  obtain ⟨i, h1, h2, h3, h4⟩ := RemoveObserver.found los v hv hlen hw
  refine ⟨i, _, h1, h2, h3, h4, rfl, rfl, ?_, ?_, ?_⟩
  · simp only [List.length_append, List.length_take, List.length_drop]; omega
  · simp only [List.length_append, List.length_take, List.length_drop]; omega
  · show (los.writers.take i ++ los.writers.drop (i + 1)).zip
        (los.formatters.take i ++ los.formatters.drop (i + 1)) = _
    rw [List.zip_append (by simp only [List.length_take]; omega)]
    simp only [List.zip, List.take_zipWith, List.drop_zipWith]

/-- For a writer of a comparable dynamic type that is equal to no registered
writer, `RemoveObserver` returns `ErrWriterNotFound` and leaves both lists as
they were, on every subject. -/
theorem RemoveObserver_unregistered_writer (los : logOutputSubject) (v : WriterValue)
    (hv : v.dynType.comparable = true) (hw : some v ∉ los.writers) :
    RemoveObserver los (some v) = Except.ok (some Error.ErrWriterNotFound, los) :=
  RemoveObserver.not_found los v hv hw

/-- For a writer of a comparable dynamic type that is registered exactly once
in a subject whose lists have equal length, a first `RemoveObserver` returns
no error, and a second one right after it returns `ErrWriterNotFound` and
leaves the subject as the first call left it. -/
theorem RemoveObserver_twice_fails (los : logOutputSubject) (v : WriterValue)
    (hv : v.dynType.comparable = true)
    (hlen : los.writers.length = los.formatters.length)
    (hone : los.writers.count (some v) = 1) :
    ∃ los1, RemoveObserver los (some v) = Except.ok (none, los1) ∧
      RemoveObserver los1 (some v) = Except.ok (some Error.ErrWriterNotFound, los1) := by
  have hw : some v ∈ los.writers := List.count_pos_iff.mp (by omega)
  obtain ⟨i, h1, h2, _, h4⟩ := RemoveObserver.found los v hv hlen hw
  refine ⟨_, h4, RemoveObserver.not_found _ v hv ?_⟩
  have hsplit : los.writers = los.writers.take i ++ some v :: los.writers.drop (i + 1) := by
    obtain ⟨hi, hget⟩ := List.getElem?_eq_some.mp h2
    rw [← hget, ← List.drop_eq_getElem_cons hi, List.take_append_drop]
  have hcount :
      (los.writers.take i).count (some v) + (los.writers.drop (i + 1)).count (some v) = 0 := by
    have := hone
    rw [hsplit, List.count_append, List.count_cons_self] at this
    omega
  intro hmem
  have : 0 < (los.writers.take i ++ los.writers.drop (i + 1)).count (some v) :=
    List.count_pos_iff.mpr hmem
  rw [List.count_append] at this
  omega

/-- C2, the code at the failing input: a writer of a non-comparable dynamic
type is registered by `AddObserver` on the new subject without error, and
`RemoveObserver` with the same writer then panics at the comparison
`los.writers[i] == w` instead of removing the pair; the subject is left as it
was. -/
theorem RemoveObserver_panics_on_registered_slice_writer :
    AddObserver stubEnv NewLogOutputSubject (sliceWriter 1) (some 10) =
      (none, { writers := [sliceWriter 1], formatters := [some 10] }) ∧
    sliceWriter 1 ∈ ({ writers := [sliceWriter 1], formatters := [some 10] } :
      logOutputSubject).writers ∧
    RemoveObserver { writers := [sliceWriter 1], formatters := [some 10] } (sliceWriter 1) =
      Except.error (RuntimePanic.uncomparable 1,
        { writers := [sliceWriter 1], formatters := [some 10] }) := by
  decide

/-- C3, the code at the failing input: with one writer of a non-comparable
dynamic type registered, `RemoveObserver` with another writer of this type,
which is not registered, panics at the comparison `los.writers[i] == w`
instead of returning `ErrWriterNotFound`. -/
theorem RemoveObserver_panics_on_other_slice_writer :
    sliceWriter 2 ≠ none ∧
    sliceWriter 2 ∉ ({ writers := [sliceWriter 1], formatters := [some 10] } :
      logOutputSubject).writers ∧
    RemoveObserver { writers := [sliceWriter 1], formatters := [some 10] } (sliceWriter 2) =
      Except.error (RuntimePanic.uncomparable 1,
        { writers := [sliceWriter 1], formatters := [some 10] }) ∧
    RemoveObserver { writers := [sliceWriter 1], formatters := [some 10] } (sliceWriter 2) ≠
      Except.ok (some Error.ErrWriterNotFound,
        { writers := [sliceWriter 1], formatters := [some 10] }) := by
  decide

/-- C4, the code at the failing input: in the subject of a pointer writer and a
writer of a non-comparable dynamic type, each registered once, the first
`RemoveObserver` with the second writer does not succeed: it passes the
pointer writer and panics at the comparison with the registered writer. -/
theorem RemoveObserver_first_call_panics_on_slice_writer :
    sliceSubject.WellFormed ∧
    sliceSubject.writers.count (sliceWriter 1) = 1 ∧
    RemoveObserver sliceSubject (sliceWriter 1) =
      Except.error (RuntimePanic.uncomparable 1, sliceSubject) ∧
    ¬ ∃ los1, RemoveObserver sliceSubject (sliceWriter 1) = Except.ok (none, los1) := by
  refine ⟨by decide, by decide, by decide, ?_⟩
  rintro ⟨los1, h⟩
  have h2 : RemoveObserver sliceSubject (sliceWriter 1) =
      Except.error (RuntimePanic.uncomparable 1, sliceSubject) := by decide
  rw [h2] at h
  cases h

/-- C5, as the code has it: for every subject, `RemoveObserver` called with the
nil writer fails, and the error it returns is `ErrNilWriter`, which is not
`ErrWriterNotFound`. -/
theorem RemoveObserver_nil_fails_with_ErrNilWriter (los : logOutputSubject) :
    ∃ e los1, RemoveObserver los none = Except.ok (some e, los1) ∧
      e = Error.ErrNilWriter ∧ e ≠ Error.ErrWriterNotFound :=
  ⟨Error.ErrNilWriter, los, rfl, rfl, by decide⟩

/-- C5 as stated fails: on the new, empty subject `RemoveObserver` called with
the nil writer does not return `ErrWriterNotFound`. -/
theorem RemoveObserver_nil_not_ErrWriterNotFound :
    ¬ ∃ los1, RemoveObserver NewLogOutputSubject none =
      Except.ok (some Error.ErrWriterNotFound, los1) := by
  rintro ⟨los1, h⟩
  simp [RemoveObserver] at h

/-- C6: for every subject, `RemoveObserver` called with the nil writer returns
`ErrNilWriter` and leaves the subject unchanged. -/
theorem RemoveObserver_nil_gives_ErrNilWriter_unchanged (los : logOutputSubject) :
    RemoveObserver los none = Except.ok (some Error.ErrNilWriter, los) :=
  rfl

/-! ## Adding an observer -/

/-- C7: `AddObserver(w, f)` returns `ErrNilWriter` when `w` is nil, whatever `f`
is; it returns `ErrNilFormatter` when `w` is not nil and `f` is absent, that
is, the nil interface or an object that reports itself nil; it returns no
error exactly when `w` is not nil and `f` is present; and on either error the
subject is unchanged. -/
theorem AddObserver_errors {σ : Type} (env : Env σ) (los : logOutputSubject) (w : Writer)
    (format : Formatter) :
    (w = none → AddObserver env los w format = (some Error.ErrNilWriter, los)) ∧
    (w ≠ none → (format = none ∨ ∃ f, format = some f ∧ env.formatterIsInterfaceNil f = true) →
      AddObserver env los w format = (some Error.ErrNilFormatter, los)) ∧
    ((AddObserver env los w format).1 = none ↔
      w ≠ none ∧ ∃ f, format = some f ∧ env.formatterIsInterfaceNil f = false) ∧
    ((AddObserver env los w format).1 ≠ none → (AddObserver env los w format).2 = los) := by
  refine ⟨?_, ?_, ?_, ?_⟩
  · intro hw
    simp [AddObserver, hw]
  · intro hw hf
    have hnil : check.IfNil env format = true := by
      rcases hf with h | ⟨f, h, hf⟩
      · simp [h, check.IfNil]
      · simp [h, check.IfNil, hf]
    simp [AddObserver, hw, hnil]
  · cases w with
    | none => simp [AddObserver]
    | some w =>
      cases format with
      | none => simp [AddObserver, check.IfNil]
      | some f =>
        cases hf : env.formatterIsInterfaceNil f <;> simp [AddObserver, check.IfNil, hf]
  · cases w with
    | none => simp [AddObserver]
    | some w =>
      cases format with
      | none => simp [AddObserver, check.IfNil]
      | some f =>
        cases hf : env.formatterIsInterfaceNil f <;> simp [AddObserver, check.IfNil, hf]

theorem AddObserver.ok_iff {σ : Type} (env : Env σ) (los : logOutputSubject) (w : Writer)
    (format : Formatter) (h : (AddObserver env los w format).1 = none) :
    w ≠ none ∧ format ≠ none ∧
      (AddObserver env los w format).2 =
        { writers := los.writers ++ [w], formatters := los.formatters ++ [format] } := by
  cases w with
  | none => simp [AddObserver] at h
  | some w =>
    cases format with
    | none => simp [AddObserver, check.IfNil] at h
    | some f =>
      cases hf : env.formatterIsInterfaceNil f
      · simp [AddObserver, check.IfNil, hf]
      · simp [AddObserver, check.IfNil, hf] at h

theorem AddObserverAll.ok {σ : Type} (env : Env σ) :
    ∀ (pairs : List (Writer × Formatter)) (los : logOutputSubject),
      (∀ e ∈ (AddObserverAll env los pairs).1, e = none) →
      (AddObserverAll env los pairs).2 =
        { writers := los.writers ++ pairs.map Prod.fst
          formatters := los.formatters ++ pairs.map Prod.snd } ∧
      ∀ p ∈ pairs, p.1 ≠ none ∧ p.2 ≠ none := by
  intro pairs
  induction pairs with
  | nil => intro los _; simp [AddObserverAll]
  | cons p rest ih =>
    intro los h
    have h1 : (AddObserver env los p.1 p.2).1 = none := h _ (by simp [AddObserverAll])
    obtain ⟨hw, hf, hstep⟩ := AddObserver.ok_iff env los p.1 p.2 h1
    have h2 : ∀ e ∈ (AddObserverAll env (AddObserver env los p.1 p.2).2 rest).1, e = none :=
      fun e he => h e (by simp [AddObserverAll, he])
    obtain ⟨hrest, hall⟩ := ih _ h2
    constructor
    · show (AddObserverAll env (AddObserver env los p.1 p.2).2 rest).2 = _
      rw [hrest, hstep]
      simp
    · intro q hq
      rcases List.mem_cons.mp hq with e | e
      · subst e; exact ⟨hw, hf⟩
      · exact hall q e

/-- C8: an `AddObserver` call that returns no error appends its pair at the end
of both lists and changes nothing else; so after a sequence of calls on the
new subject that all returned no error, the lists are the writers and the
formatters of the calls, in call order, and `Output` then calls, pair by pair
in the order added, the formatter on the converted line and the writer on the
bytes that this formatter call returned, once for each pair, each call in the
world state that the call before it left, when these calls return. -/
theorem AddObserver_appends_pair {σ : Type} (env : Env σ) (los : logOutputSubject) (w : Writer)
    (format : Formatter) (pairs : List (Writer × Formatter)) (line : Option LogLine) (s : σ)
    (hone : (AddObserver env los w format).1 = none)
    (hall : ∀ e ∈ (AddObserverAll env NewLogOutputSubject pairs).1, e = none)
    (hret : env.Returns) :
    (AddObserver env los w format).2 =
      { writers := los.writers ++ [w], formatters := los.formatters ++ [format] } ∧
    (AddObserverAll env NewLogOutputSubject pairs).2 =
      { writers := pairs.map Prod.fst, formatters := pairs.map Prod.snd } ∧
    ∃ (s1 : σ) (calls : List Call) (st : Nat → σ),
      Output env (AddObserverAll env NewLogOutputSubject pairs).2 line s = Except.ok (s1, calls) ∧
      calls.length = 2 * pairs.length ∧
      calls.countP Call.isFormat = pairs.length ∧
      calls.countP Call.isWrite = pairs.length ∧
      st 0 = s ∧ st pairs.length = s1 ∧
      ∀ i, i < pairs.length → ∃ f w buff sf res,
        pairs[i]? = some (some w, some f) ∧
        env.formatterOutput f (convertLogLine env.displayByteSlice line) (st i) =
          Ended.returned buff sf ∧
        env.writerWrite w buff sf = Ended.returned res (st (i + 1)) ∧
        calls[2 * i]? = some (Call.format f (convertLogLine env.displayByteSlice line) buff) ∧
        calls[2 * i + 1]? = some (Call.write w buff res) := by
  obtain ⟨hfinal, hpairs⟩ := AddObserverAll.ok env pairs NewLogOutputSubject hall
  have hfinal2 : (AddObserverAll env NewLogOutputSubject pairs).2 =
      { writers := pairs.map Prod.fst, formatters := pairs.map Prod.snd } := by
    rw [hfinal]; simp [NewLogOutputSubject]
  refine ⟨(AddObserver.ok_iff env los w format hone).2.2, hfinal2, ?_⟩
  have hwf : (AddObserverAll env NewLogOutputSubject pairs).2.WellFormed := by
    rw [hfinal2]
    refine ⟨by simp, ?_, ?_⟩
    · simp only [List.mem_map, not_exists, not_and]
      intro p hp e; exact (hpairs p hp).1 e
    · simp only [List.mem_map, not_exists, not_and]
      intro p hp e; exact (hpairs p hp).2 e
  obtain ⟨s1, calls, st, hrun, hlen, hcf, hcw, h0, hN, hat⟩ := Output.made env _ line s hwf hret
  rw [hfinal2] at hlen hcf hcw hN hat
  simp only [List.length_map] at hlen hcf hcw hN hat
  refine ⟨s1, calls, st, hrun, hlen, hcf, hcw, h0, hN, ?_⟩
  intro i hi
  obtain ⟨f, w1, buff, sf, res, h1, h2, h3, h4, h5, h6⟩ := hat i hi
  refine ⟨f, w1, buff, sf, res, ?_, h3, h4, h5, h6⟩
  rw [List.getElem?_map] at h1 h2
  cases hp : pairs[i]? with
  | none => rw [hp] at h1; simp at h1
  | some p =>
    rw [hp] at h1 h2
    simp only [Option.map_some', Option.some.injEq] at h1 h2
    rw [← h1, ← h2]

/-- Witness of C8: a pointer writer with formatter 50 added to the stub subject,
and two pairs of a pointer writer and a formatter added to the new subject. -/
theorem AddObserver_appends_pair_witness :
    (AddObserver stubEnv stubSubject (ptrWriter 5) (some 50)).1 = none ∧
    (∀ e ∈ (AddObserverAll stubEnv NewLogOutputSubject
      [(ptrWriter 1, some 10), (ptrWriter 2, some 20)]).1, e = none) ∧
    stubEnv.Returns ∧
    (AddObserver stubEnv stubSubject (ptrWriter 5) (some 50)).2 =
      { writers := stubSubject.writers ++ [ptrWriter 5]
        formatters := stubSubject.formatters ++ [some 50] } ∧
    (AddObserverAll stubEnv NewLogOutputSubject [(ptrWriter 1, some 10), (ptrWriter 2, some 20)]).2 =
      { writers := [(ptrWriter 1, some 10), (ptrWriter 2, some 20)].map Prod.fst
        formatters := [(ptrWriter 1, some 10), (ptrWriter 2, some 20)].map Prod.snd } ∧
    ∃ (s1 : Nat) (calls : List Call) (st : Nat → Nat),
      Output stubEnv (AddObserverAll stubEnv NewLogOutputSubject
        [(ptrWriter 1, some 10), (ptrWriter 2, some 20)]).2 none 0 = Except.ok (s1, calls) ∧
      calls.length = 2 * [(ptrWriter 1, some 10), (ptrWriter 2, some 20)].length ∧
      calls.countP Call.isFormat = [(ptrWriter 1, some 10), (ptrWriter 2, some 20)].length ∧
      calls.countP Call.isWrite = [(ptrWriter 1, some 10), (ptrWriter 2, some 20)].length ∧
      st 0 = 0 ∧ st [(ptrWriter 1, some 10), (ptrWriter 2, some 20)].length = s1 ∧
      ∀ i, i < [(ptrWriter 1, some 10), (ptrWriter 2, some 20)].length → ∃ f w buff sf res,
        [(ptrWriter 1, some 10), (ptrWriter 2, some 20)][i]? = some (some w, some f) ∧
        stubEnv.formatterOutput f (convertLogLine stubEnv.displayByteSlice none) (st i) =
          Ended.returned buff sf ∧
        stubEnv.writerWrite w buff sf = Ended.returned res (st (i + 1)) ∧
        calls[2 * i]? = some (Call.format f (convertLogLine stubEnv.displayByteSlice none) buff) ∧
        calls[2 * i + 1]? = some (Call.write w buff res) :=
  ⟨by decide, by decide, ⟨fun _ _ _ => ⟨_, _, rfl⟩, fun _ _ _ => ⟨_, _, rfl⟩⟩,
    AddObserver_appends_pair stubEnv stubSubject (ptrWriter 5) (some 50)
      [(ptrWriter 1, some 10), (ptrWriter 2, some 20)] none 0 (by decide) (by decide)
      ⟨fun _ _ _ => ⟨_, _, rfl⟩, fun _ _ _ => ⟨_, _, rfl⟩⟩⟩

/-! ## Clearing the observers -/

/-- C9: for every subject, `ClearObservers` leaves the writers list and the
formatters list empty, and an `Output` call right after it returns without
any formatter call or writer call, for every log line and world state. -/
theorem ClearObservers_then_Output {σ : Type} (env : Env σ) (los : logOutputSubject)
    (line : Option LogLine) (s : σ) :
    (ClearObservers los).writers = [] ∧ (ClearObservers los).formatters = [] ∧
    Output env (ClearObservers los) line s = Except.ok (s, []) :=
  ⟨rfl, rfl, rfl⟩

/-! ## Failing writes and failing formatters -/

theorem Env.withWriteResults_returns {σ : Type} (env : Env σ)
    (r : WriterValue → List Byte → WriteResult) (hret : env.Returns) :
    (env.withWriteResults r).Returns := by
  refine ⟨hret.1, ?_⟩
  intro w p s
  obtain ⟨res, s1, hw⟩ := hret.2 w p s
  exact ⟨r w p, s1, by simp [Env.withWriteResults, hw]⟩

/-- C10, as the code has it: an error that `Write` returns is dropped. For every
subject holding N pairs and every assignment `r` of results, errors among
them, to the `Write` calls, when the calls of the formatters and writers
return, `Output` returns normally and has called the formatter and the writer
of every one of the N pairs in order, the writer call of pair `i` on the
bytes that the formatter of pair `i` returned and with the result that `r`
assigns to it. A panic is not recovered: when the formatter of the first
pair panics, `Output` ends with this panic after that one call. -/
theorem Output_ignores_write_errors {σ : Type} (env : Env σ) (los : logOutputSubject)
    (line : Option LogLine) (s : σ) (r : WriterValue → List Byte → WriteResult)
    (h : los.WellFormed) (hret : env.Returns) :
    (∃ (s1 : σ) (calls : List Call) (st : Nat → σ),
      Output (env.withWriteResults r) los line s = Except.ok (s1, calls) ∧
      calls.length = 2 * los.writers.length ∧
      st 0 = s ∧ st los.writers.length = s1 ∧
      ∀ i, i < los.writers.length → ∃ f w buff sf res,
        los.formatters[i]? = some (some f) ∧ los.writers[i]? = some (some w) ∧
        env.formatterOutput f (convertLogLine env.displayByteSlice line) (st i) =
          Ended.returned buff sf ∧
        env.writerWrite w buff sf = Ended.returned res (st (i + 1)) ∧
        calls[2 * i]? = some (Call.format f (convertLogLine env.displayByteSlice line) buff) ∧
        calls[2 * i + 1]? = some (Call.write w buff (r w buff))) ∧
    (∀ (envp : Env σ) (f : Nat) (sp : σ), los.formatters[0]? = some (some f) →
      envp.formatterOutput f (convertLogLine envp.displayByteSlice line) s = Ended.panicked sp →
      Output envp los line s =
        Except.error (RuntimePanic.collaborator,
          (sp, [Call.formatPanicked f (convertLogLine envp.displayByteSlice line)]))) := by
  constructor
  · obtain ⟨s1, calls, st, hrun, hlen, _, _, h0, hN, hat⟩ :=
      Output.made (env.withWriteResults r) los line s h (Env.withWriteResults_returns env r hret)
    refine ⟨s1, calls, st, hrun, hlen, h0, hN, ?_⟩
    intro i hi
    obtain ⟨f, w, buff, sf, res, h1, h2, h3, h4, h5, h6⟩ := hat i hi
    obtain ⟨res0, s2, hw⟩ := hret.2 w buff sf
    have h4b : (env.withWriteResults r).writerWrite w buff sf = Ended.returned (r w buff) s2 := by
      simp [Env.withWriteResults, hw]
    rw [h4b] at h4
    have hres : r w buff = res := by injection h4
    have hst : s2 = st (i + 1) := by injection h4
    refine ⟨f, w, buff, sf, res0, h1, h2, h3, by rw [← hst]; exact hw, h5, ?_⟩
    rw [hres]; exact h6
  · intro envp f sp hf hp
    have hn : 0 < los.writers.length := by
      rw [h.1]
      exact (List.getElem?_eq_some.mp hf).1
    exact Output.first_formatter_panics envp los line s sp f hn hf hp

/-- Witness of C10: on the stub subject, every write fails with the error
`broken pipe`. -/
theorem Output_ignores_write_errors_witness :
    stubSubject.WellFormed ∧ stubEnv.Returns ∧
    (∃ (s1 : Nat) (calls : List Call) (st : Nat → Nat),
      Output (stubEnv.withWriteResults (fun _ _ => { n := 0, err := some (lit "broken pipe") }))
        stubSubject none 0 = Except.ok (s1, calls) ∧
      calls.length = 2 * stubSubject.writers.length ∧
      st 0 = 0 ∧ st stubSubject.writers.length = s1 ∧
      ∀ i, i < stubSubject.writers.length → ∃ f w buff sf res,
        stubSubject.formatters[i]? = some (some f) ∧ stubSubject.writers[i]? = some (some w) ∧
        stubEnv.formatterOutput f (convertLogLine stubEnv.displayByteSlice none) (st i) =
          Ended.returned buff sf ∧
        stubEnv.writerWrite w buff sf = Ended.returned res (st (i + 1)) ∧
        calls[2 * i]? = some (Call.format f (convertLogLine stubEnv.displayByteSlice none) buff) ∧
        calls[2 * i + 1]? =
          some (Call.write w buff { n := 0, err := some (lit "broken pipe") })) ∧
    (∀ (envp : Env Nat) (f : Nat) (sp : Nat), stubSubject.formatters[0]? = some (some f) →
      envp.formatterOutput f (convertLogLine envp.displayByteSlice none) 0 = Ended.panicked sp →
      Output envp stubSubject none 0 =
        Except.error (RuntimePanic.collaborator,
          (sp, [Call.formatPanicked f (convertLogLine envp.displayByteSlice none)]))) :=
  ⟨by decide, ⟨fun _ _ _ => ⟨_, _, rfl⟩, fun _ _ _ => ⟨_, _, rfl⟩⟩,
    Output_ignores_write_errors stubEnv stubSubject none 0
      (fun _ _ => { n := 0, err := some (lit "broken pipe") }) (by decide)
      ⟨fun _ _ _ => ⟨_, _, rfl⟩, fun _ _ _ => ⟨_, _, rfl⟩⟩⟩

/-- C10 as stated fails for a failing formatter: on the stub subject with its
four pairs, when formatter 10 of the first pair panics, `Output` does not
return normally; it ends with the panic after that one call, and no writer
and no later formatter has been called. -/
theorem Output_stops_at_panicking_formatter :
    stubSubject.WellFormed ∧
    Output panicEnv stubSubject none 0 =
      Except.error (RuntimePanic.collaborator, (0, [Call.formatPanicked 10 none])) ∧
    ¬ ∃ r, Output panicEnv stubSubject none 0 = Except.ok r := by
  have h2 : Output panicEnv stubSubject none 0 =
      Except.error (RuntimePanic.collaborator, (0, [Call.formatPanicked 10 none])) := by decide
  refine ⟨by decide, h2, ?_⟩
  rintro ⟨r, hr⟩
  rw [h2] at hr
  cases hr

/-! ## The renderer -/

theorem isASCII_cons (c : Byte) (rest : GoString) :
    isASCII (c :: rest) =
      (decide ((0x20 ≤ c.val ∧ c.val ≤ 0x7F) ∨ c.val = 0x09 ∨ c.val = 0x0D ∨ c.val = 0x0A) &&
        isASCII rest) := by
  have h1 : (c ≥ utf8.RuneSelf) ↔ 128 ≤ c.val := Fin.le_def
  have h2 : (c ≥ ASCIISpace) ↔ 32 ≤ c.val := Fin.le_def
  have h3 : c = ASCIITab ↔ c.val = 9 := Fin.ext_iff
  have h4 : c = ASCIILineFeed ↔ c.val = 13 := Fin.ext_iff
  have h5 : c = ASCIINewLine ↔ c.val = 10 := Fin.ext_iff
  have hc := c.isLt
  rw [isASCII]
  simp only [h1, h2, h3, h4, h5]
  by_cases a1 : 128 ≤ c.val
  · have hd : decide ((0x20 ≤ c.val ∧ c.val ≤ 0x7F) ∨ c.val = 0x09 ∨ c.val = 0x0D ∨ c.val = 0x0A) = false :=
      decide_eq_false (by omega)
    rw [hd, if_pos a1, Bool.false_and]
  · by_cases a2 : 32 ≤ c.val
    · have hd : decide ((0x20 ≤ c.val ∧ c.val ≤ 0x7F) ∨ c.val = 0x09 ∨ c.val = 0x0D ∨ c.val = 0x0A) = true :=
        decide_eq_true (by omega)
      rw [hd, if_neg a1, if_pos a2, Bool.true_and]
    · by_cases a3 : c.val = 9 ∨ c.val = 13 ∨ c.val = 10
      · have hd : decide ((0x20 ≤ c.val ∧ c.val ≤ 0x7F) ∨ c.val = 0x09 ∨ c.val = 0x0D ∨ c.val = 0x0A) = true :=
          decide_eq_true (by omega)
        rw [hd, if_neg a1, if_neg a2, if_pos a3, Bool.true_and]
      · have hd : decide ((0x20 ≤ c.val ∧ c.val ≤ 0x7F) ∨ c.val = 0x09 ∨ c.val = 0x0D ∨ c.val = 0x0A) = false :=
          decide_eq_false (by omega)
        rw [hd, if_neg a1, if_neg a2, if_neg a3, Bool.false_and]

theorem isASCII_iff (s : GoString) :
    isASCII s = true ↔
      ∀ c ∈ s, (0x20 ≤ c.val ∧ c.val ≤ 0x7F) ∨ c.val = 0x09 ∨ c.val = 0x0D ∨ c.val = 0x0A := by
  induction s with
  | nil => simp [isASCII]
  | cons c rest ih =>
    rw [isASCII_cons]
    simp only [Bool.and_eq_true, decide_eq_true_eq, ih, List.mem_cons, forall_eq_or_imp]

theorem convertLogLine_args (h : List Byte → GoString) (logLine : LogLine) :
    ∃ cl, convertLogLine h (some logLine) = some cl ∧
      cl.Args = logLine.Args.map (convertArg h) :=
  ⟨_, rfl, rfl⟩

theorem convertLogLine_arg_at (h : List Byte → GoString) (logLine : LogLine) (i : Nat) (a : Arg)
    (hi : logLine.Args[i]? = some a) :
    ∃ cl, convertLogLine h (some logLine) = some cl ∧ cl.Args[i]? = some (convertArg h a) := by
  refine ⟨_, rfl, ?_⟩
  simp [List.getElem?_map, hi]

theorem hextable_spec (n : Nat) (hn : n < 16) :
    (lit "0123456789abcdef")[n]? = some (hextable n) ∧
      ((48 ≤ (hextable n).val ∧ (hextable n).val ≤ 57) ∨
        (97 ≤ (hextable n).val ∧ (hextable n).val ≤ 102)) := by
  interval_cases n <;> decide

theorem hex.EncodeToString_cons (v : Byte) (rest : List Byte) :
    hex.EncodeToString (v :: rest) =
      hextable (v.val / 16) :: hextable (v.val % 16) :: hex.EncodeToString rest := by
  simp [hex.EncodeToString]

theorem hex.EncodeToString_length (b : List Byte) :
    (hex.EncodeToString b).length = 2 * b.length := by
  induction b with
  | nil => rfl
  | cons v rest ih => rw [hex.EncodeToString_cons]; simp [ih]; omega

theorem hex.EncodeToString_digits (b : List Byte) :
    ∀ j, j < b.length → ∃ v, b[j]? = some v ∧
      (hex.EncodeToString b)[2 * j]? = some (hextable (v.val / 16)) ∧
      (hex.EncodeToString b)[2 * j + 1]? = some (hextable (v.val % 16)) := by
  induction b with
  | nil => intro j hj; simp at hj
  | cons v rest ih =>
    intro j hj
    rw [hex.EncodeToString_cons]
    cases j with
    | zero => exact ⟨v, by simp, by simp, by simp⟩
    | succ j =>
      obtain ⟨u, h1, h2, h3⟩ := ih j (by simpa using hj)
      refine ⟨u, by simpa using h1, ?_, ?_⟩
      · have : 2 * (j + 1) = (2 * j) + 1 + 1 := by omega
        rw [this]; simpa using h2
      · have : 2 * (j + 1) + 1 = (2 * j + 1) + 1 + 1 := by omega
        rw [this]; simpa using h3

theorem hex.EncodeToString_chars (b : List Byte) :
    ∀ c ∈ hex.EncodeToString b, (48 ≤ c.val ∧ c.val ≤ 57) ∨ (97 ≤ c.val ∧ c.val ≤ 102) := by
  induction b with
  | nil => intro c hc; simp [hex.EncodeToString] at hc
  | cons v rest ih =>
    intro c hc
    rw [hex.EncodeToString_cons] at hc
    have hv := v.isLt
    rcases List.mem_cons.mp hc with e | hc
    · subst e; exact (hextable_spec (v.val / 16) (by omega)).2
    · rcases List.mem_cons.mp hc with e | hc
      · subst e; exact (hextable_spec (v.val % 16) (by omega)).2
      · exact ih c hc

theorem fmtNat_eq (m : Nat) : fmtNat m = lit (toString m) := rfl

theorem lit_append (s t : String) : lit (s ++ t) = lit s ++ lit t := by
  simp [lit, String.toList]

theorem fmt.SprintfV_int (n : Int) : fmt.SprintfV (.int n) = lit (toString n) := by
  cases n with
  | ofNat m =>
    have : ¬ (Int.ofNat m < 0) := by simp
    simp only [fmt.SprintfV, this, if_false]
    rfl
  | negSucc m =>
    have : Int.negSucc m < 0 := Int.negSucc_lt_zero m
    simp only [fmt.SprintfV, this, if_true]
    show lit "-" ++ fmtNat (m + 1) = lit ("-" ++ toString (m + 1))
    rw [lit_append, fmtNat_eq]

/-! ## The nil log line -/

/-- C11: `convertLogLine` turns the nil log line into the nil converted line,
and `Output` on the nil log line returns normally on every subject holding N
pairs, when the calls of the formatters and writers return: round `i` calls
the formatter of pair `i` once, on the nil converted line, and then the
writer of pair `i` once, on the bytes that this formatter call returned, each
call in the world state that the call before it left. -/
theorem Output_nil_line_calls_each_pair {σ : Type} (env : Env σ) (los : logOutputSubject) (s : σ)
    (h : los.WellFormed) (hret : env.Returns) :
    convertLogLine env.displayByteSlice none = none ∧
    ∃ (s1 : σ) (calls : List Call) (st : Nat → σ),
      Output env los none s = Except.ok (s1, calls) ∧
      calls.length = 2 * los.writers.length ∧
      calls.countP Call.isFormat = los.writers.length ∧
      calls.countP Call.isWrite = los.writers.length ∧
      st 0 = s ∧ st los.writers.length = s1 ∧
      ∀ i, i < los.writers.length → ∃ f w buff sf res,
        los.formatters[i]? = some (some f) ∧ los.writers[i]? = some (some w) ∧
        env.formatterOutput f none (st i) = Ended.returned buff sf ∧
        env.writerWrite w buff sf = Ended.returned res (st (i + 1)) ∧
        calls[2 * i]? = some (Call.format f none buff) ∧
        calls[2 * i + 1]? = some (Call.write w buff res) :=
  ⟨rfl, Output.made env los none s h hret⟩

/-- Witness of C11: the stub subject with its four pairs. -/
theorem Output_nil_line_calls_each_pair_witness :
    stubSubject.WellFormed ∧ stubEnv.Returns ∧
    convertLogLine stubEnv.displayByteSlice none = none ∧
    ∃ (s1 : Nat) (calls : List Call) (st : Nat → Nat),
      Output stubEnv stubSubject none 0 = Except.ok (s1, calls) ∧
      calls.length = 2 * stubSubject.writers.length ∧
      calls.countP Call.isFormat = stubSubject.writers.length ∧
      calls.countP Call.isWrite = stubSubject.writers.length ∧
      st 0 = 0 ∧ st stubSubject.writers.length = s1 ∧
      ∀ i, i < stubSubject.writers.length → ∃ f w buff sf res,
        stubSubject.formatters[i]? = some (some f) ∧ stubSubject.writers[i]? = some (some w) ∧
        stubEnv.formatterOutput f none (st i) = Ended.returned buff sf ∧
        stubEnv.writerWrite w buff sf = Ended.returned res (st (i + 1)) ∧
        calls[2 * i]? = some (Call.format f none buff) ∧
        calls[2 * i + 1]? = some (Call.write w buff res) :=
  ⟨by decide, ⟨fun _ _ _ => ⟨_, _, rfl⟩, fun _ _ _ => ⟨_, _, rfl⟩⟩,
    Output_nil_line_calls_each_pair stubEnv stubSubject 0 (by decide)
      ⟨fun _ _ _ => ⟨_, _, rfl⟩, fun _ _ _ => ⟨_, _, rfl⟩⟩⟩

/-! ## Safe ASCII -/

/-- What the loop of `isASCII` computes: true exactly when every byte of `s` is
in the range 0x20 to 0x7F, the byte 0x7F included, or is a tab, a carriage
return or a line feed; false exactly when `s` holds a byte from 0x80 on or
another byte below 0x20. -/
theorem isASCII_true_iff_bytes_upto_0x7F (s : GoString) :
    (isASCII s = true ↔
      ∀ c ∈ s, (0x20 ≤ c.val ∧ c.val ≤ 0x7F) ∨ c.val = 0x09 ∨ c.val = 0x0D ∨ c.val = 0x0A) ∧
    (isASCII s = false ↔
      ∃ c ∈ s, 0x80 ≤ c.val ∨ (c.val < 0x20 ∧ c.val ≠ 0x09 ∧ c.val ≠ 0x0D ∧ c.val ≠ 0x0A)) := by
  have hiff := isASCII_iff s
  refine ⟨hiff, ?_⟩
  rw [← Bool.not_eq_true, hiff]
  constructor
  · intro hn
    by_contra hc
    apply hn
    intro c hcs
    by_contra hbad
    exact hc ⟨c, hcs, by omega⟩
  · rintro ⟨c, hcs, hbad⟩ hall
    have := hall c hcs
    omega

/-- C12, the code at the failing input: the string of the one byte 0x7F passes
`isASCII`, although 0x7F is neither in the range 0x20 to 0x7E nor a tab, a
carriage return or a line feed; so a string argument of this one byte is
rendered as the byte itself, and not as `7f`, which the default handler
gives for it. -/
theorem isASCII_accepts_0x7F :
    isASCII [0x7F] = true ∧
    ¬ (∀ c ∈ ([0x7F] : GoString),
        (0x20 ≤ c.val ∧ c.val ≤ 0x7E) ∨ c.val = 0x09 ∨ c.val = 0x0D ∨ c.val = 0x0A) ∧
    convertArg hex.EncodeToString (Arg.string [0x7F]) = [0x7F] ∧
    hex.EncodeToString [0x7F] = lit "7f" := by
  refine ⟨by decide, ?_, by decide, by decide⟩
  intro h
  have h2 := h 0x7F (List.mem_singleton.mpr rfl)
  have h3 : ((0x7F : Byte).val : Nat) = 127 := rfl
  omega

/-! ## Rendering the arguments -/

/-- C13: with the default handler, a string argument `s` at position `i` is
rendered as `s` itself when `isASCII(s)` is true, and otherwise as the
lowercase hexadecimal encoding of the bytes of `s`, which is what the byte
slice of the same bytes is rendered to. -/
theorem convertLogLine_renders_string (logLine : LogLine) (i : Nat) (s : GoString)
    (hi : logLine.Args[i]? = some (Arg.string s)) :
    ∃ cl, convertLogLine hex.EncodeToString (some logLine) = some cl ∧
      (isASCII s = true → cl.Args[i]? = some s) ∧
      (isASCII s = false →
        cl.Args[i]? = some (hex.EncodeToString s) ∧
        cl.Args[i]? = some (convertArg hex.EncodeToString (Arg.bytes s))) := by
  obtain ⟨cl, hcl, hat⟩ := convertLogLine_arg_at hex.EncodeToString logLine i _ hi
  refine ⟨cl, hcl, ?_, ?_⟩
  · intro ha
    rw [hat]; simp [convertArg, convertStringIfNotASCII, ha]
  · intro ha
    rw [hat]; simp [convertArg, convertStringIfNotASCII, ha]

/-- Witness of C13: the string of the bytes c3 82 c2 b5 73 at position 5 of the
stub line. -/
theorem convertLogLine_renders_string_witness :
    stubLine.Args[5]? = some (Arg.string [0xC3, 0x82, 0xC2, 0xB5, 0x73]) ∧
    ∃ cl, convertLogLine hex.EncodeToString (some stubLine) = some cl ∧
      (isASCII [0xC3, 0x82, 0xC2, 0xB5, 0x73] = true →
        cl.Args[5]? = some [0xC3, 0x82, 0xC2, 0xB5, 0x73]) ∧
      (isASCII [0xC3, 0x82, 0xC2, 0xB5, 0x73] = false →
        cl.Args[5]? = some (hex.EncodeToString [0xC3, 0x82, 0xC2, 0xB5, 0x73]) ∧
        cl.Args[5]? =
          some (convertArg hex.EncodeToString (Arg.bytes [0xC3, 0x82, 0xC2, 0xB5, 0x73]))) :=
  ⟨by decide, convertLogLine_renders_string stubLine 5 [0xC3, 0x82, 0xC2, 0xB5, 0x73] (by decide)⟩

/-- C14: with the default handler, a byte slice argument `b` of length n at
position `i` is rendered as a string of exactly 2n characters, each one of
`0` to `9` or `a` to `f`, the characters 2j and 2j+1 being the high and the
low hexadecimal digit of byte j; 32 bytes of 0x01 give 64 characters, `01`
repeated. -/
theorem convertLogLine_renders_bytes (logLine : LogLine) (i : Nat) (b : List Byte)
    (hi : logLine.Args[i]? = some (Arg.bytes b)) :
    ∃ cl r, convertLogLine hex.EncodeToString (some logLine) = some cl ∧
      cl.Args[i]? = some r ∧
      r.length = 2 * b.length ∧
      (∀ c ∈ r, (48 ≤ c.val ∧ c.val ≤ 57) ∨ (97 ≤ c.val ∧ c.val ≤ 102)) ∧
      (∀ j, j < b.length → ∃ v, b[j]? = some v ∧
        r[2 * j]? = (lit "0123456789abcdef")[v.val / 16]? ∧
        r[2 * j + 1]? = (lit "0123456789abcdef")[v.val % 16]?) ∧
      convertArg hex.EncodeToString (Arg.bytes (List.replicate 32 0x01)) =
        lit "0101010101010101010101010101010101010101010101010101010101010101" := by
  obtain ⟨cl, hcl, hat⟩ := convertLogLine_arg_at hex.EncodeToString logLine i _ hi
  refine ⟨cl, hex.EncodeToString b, hcl, hat, hex.EncodeToString_length b,
    hex.EncodeToString_chars b, ?_, by decide⟩
  intro j hj
  obtain ⟨v, h1, h2, h3⟩ := hex.EncodeToString_digits b j hj
  have hv := v.isLt
  refine ⟨v, h1, ?_, ?_⟩
  · rw [h2, (hextable_spec (v.val / 16) (by omega)).1]
  · rw [h3, (hextable_spec (v.val % 16) (by omega)).1]

/-- Witness of C14: the byte slice `aaa` at position 9 of the stub line. -/
theorem convertLogLine_renders_bytes_witness :
    stubLine.Args[9]? = some (Arg.bytes (lit "aaa")) ∧
    ∃ cl r, convertLogLine hex.EncodeToString (some stubLine) = some cl ∧
      cl.Args[9]? = some r ∧
      r.length = 2 * (lit "aaa").length ∧
      (∀ c ∈ r, (48 ≤ c.val ∧ c.val ≤ 57) ∨ (97 ≤ c.val ∧ c.val ≤ 102)) ∧
      (∀ j, j < (lit "aaa").length → ∃ v, (lit "aaa")[j]? = some v ∧
        r[2 * j]? = (lit "0123456789abcdef")[v.val / 16]? ∧
        r[2 * j + 1]? = (lit "0123456789abcdef")[v.val % 16]?) ∧
      convertArg hex.EncodeToString (Arg.bytes (List.replicate 32 0x01)) =
        lit "0101010101010101010101010101010101010101010101010101010101010101" :=
  ⟨by decide, convertLogLine_renders_bytes stubLine 9 (lit "aaa") (by decide)⟩

/-- C15: for every log line that is not nil, and every handler, `convertLogLine`
returns a converted line whose argument list is as long as the argument list
of the input and holds at every position `i` the rendering of the input
argument at position `i`. -/
theorem convertLogLine_keeps_every_arg (h : List Byte → GoString) (logLine : LogLine) :
    ∃ cl, convertLogLine h (some logLine) = some cl ∧
      cl.Args.length = logLine.Args.length ∧
      (∀ (i : Nat) (a : Arg), logLine.Args[i]? = some a → cl.Args[i]? = some (convertArg h a)) ∧
      (∀ (i : Nat) (r : GoString), cl.Args[i]? = some r →
        ∃ a, logLine.Args[i]? = some a ∧ r = convertArg h a) := by
  obtain ⟨cl, hcl, hargs⟩ := convertLogLine_args h logLine
  refine ⟨cl, hcl, by simp [hargs], ?_, ?_⟩
  · intro i a hi
    simp [hargs, List.getElem?_map, hi]
  · intro i r hr
    rw [hargs, List.getElem?_map] at hr
    cases ha : logLine.Args[i]? with
    | none => rw [ha] at hr; simp at hr
    | some a => rw [ha] at hr; exact ⟨a, rfl, by simpa using hr.symm⟩

/-- C16: an argument at position `i` that is neither a byte slice nor a string
is rendered by `fmt.Sprintf("%v", ...)`, whatever the handler: a boolean gives
`true` or `false`, an integer its decimal digits, an error its message and a
duration its textual form, 4001 nanoseconds giving `4.001` followed by the
micro sign and `s`, and not `4001`. -/
theorem convertLogLine_renders_other (h : List Byte → GoString) (logLine : LogLine) (i : Nat)
    (a : Arg) (hi : logLine.Args[i]? = some a)
    (hb : ∀ b, a ≠ Arg.bytes b) (hs : ∀ s, a ≠ Arg.string s) :
    (∃ cl, convertLogLine h (some logLine) = some cl ∧ cl.Args[i]? = some (fmt.SprintfV a)) ∧
    convertArg h (Arg.bool true) = lit "true" ∧
    convertArg h (Arg.bool false) = lit "false" ∧
    (∀ n : Int, convertArg h (Arg.int n) = lit (toString n)) ∧
    (∀ msg, convertArg h (Arg.error msg) = msg) ∧
    (∀ ns, convertArg h (Arg.duration ns) = Duration.String ns) ∧
    convertArg h (Arg.duration 4001) = lit "4.001" ++ [0xC2, 0xB5] ++ lit "s" ∧
    convertArg h (Arg.duration 4001) ≠ lit "4001" := by
  have hd : Duration.String 4001 = lit "4.001" ++ [0xC2, 0xB5] ++ lit "s" := by decide
  have hn : Duration.String 4001 ≠ lit "4001" := by decide
  refine ⟨?_, rfl, rfl, ?_, fun _ => rfl, fun _ => rfl, hd, hn⟩
  · obtain ⟨cl, hcl, hat⟩ := convertLogLine_arg_at h logLine i a hi
    refine ⟨cl, hcl, ?_⟩
    rw [hat]
    cases a with
    | bytes b => exact absurd rfl (hb b)
    | string s => exact absurd rfl (hs s)
    | _ => rfl
  · intro n
    show fmt.SprintfV (Arg.int n) = _
    exact fmt.SprintfV_int n

/-- Witness of C16: the duration of 4001 nanoseconds at position 7 of the stub
line. -/
theorem convertLogLine_renders_other_witness :
    stubLine.Args[7]? = some (Arg.duration 4001) ∧
    (∀ b, Arg.duration 4001 ≠ Arg.bytes b) ∧ (∀ s, Arg.duration 4001 ≠ Arg.string s) ∧
    (∃ cl, convertLogLine hex.EncodeToString (some stubLine) = some cl ∧
      cl.Args[7]? = some (fmt.SprintfV (Arg.duration 4001))) ∧
    convertArg hex.EncodeToString (Arg.bool true) = lit "true" ∧
    convertArg hex.EncodeToString (Arg.bool false) = lit "false" ∧
    (∀ n : Int, convertArg hex.EncodeToString (Arg.int n) = lit (toString n)) ∧
    (∀ msg, convertArg hex.EncodeToString (Arg.error msg) = msg) ∧
    (∀ ns, convertArg hex.EncodeToString (Arg.duration ns) = Duration.String ns) ∧
    convertArg hex.EncodeToString (Arg.duration 4001) = lit "4.001" ++ [0xC2, 0xB5] ++ lit "s" ∧
    convertArg hex.EncodeToString (Arg.duration 4001) ≠ lit "4001" :=
  ⟨by decide, fun _ => by simp, fun _ => by simp,
    convertLogLine_renders_other hex.EncodeToString stubLine 7 (Arg.duration 4001) (by decide)
      (fun _ => by simp) (fun _ => by simp)⟩

/-- C17, as the code has it: for every log line that is not nil, the converted
line has the logger name, the correlation token and the message of the input,
its level is the input level, which fits 32 bits, and its timestamp is the
`UnixNano` value of the input timestamp: the count of nanoseconds since the
epoch reduced to a signed 64-bit integer, which is the count itself whenever
the count fits 64 bits. -/
theorem convertLogLine_copies_fields (h : List Byte → GoString) (logLine : LogLine) :
    ∃ cl, convertLogLine h (some logLine) = some cl ∧
      cl.LoggerName = logLine.LoggerName ∧
      cl.Correlation = logLine.Correlation ∧
      cl.Message = logLine.Message ∧
      cl.LogLevel = (logLine.LogLevel.val : Int) ∧
      (-(2 : Int) ^ 31 ≤ cl.LogLevel ∧ cl.LogLevel < (2 : Int) ^ 31) ∧
      cl.Timestamp =
        toInt64 (logLine.Timestamp.sec * 1000000000 + (logLine.Timestamp.nsec.val : Int)) ∧
      (-(2 : Int) ^ 63 ≤ cl.Timestamp ∧ cl.Timestamp < (2 : Int) ^ 63) ∧
      (-(2 : Int) ^ 63 ≤ logLine.Timestamp.sec * 1000000000 + (logLine.Timestamp.nsec.val : Int) →
        logLine.Timestamp.sec * 1000000000 + (logLine.Timestamp.nsec.val : Int) < (2 : Int) ^ 63 →
        cl.Timestamp = logLine.Timestamp.sec * 1000000000 + (logLine.Timestamp.nsec.val : Int)) := by
  refine ⟨_, rfl, rfl, rfl, rfl, rfl, ?_, rfl, ?_, ?_⟩
  · have := logLine.LogLevel.isLt
    constructor <;> simp only [] <;> omega
  · simp only [Time.UnixNano, toInt64]
    constructor <;> omega
  · intro h1 h2
    simp only [Time.UnixNano, toInt64]
    omega

/-- C17 as stated fails: the log line of `testArgFormat` carries the zero
`time.Time`, and the timestamp of its converted line is not the count of
nanoseconds from the epoch to that time. -/
theorem convertLogLine_zero_time_wraps :
    ¬ ∃ cl, convertLogLine hex.EncodeToString (some zeroTimeLine) = some cl ∧
      cl.Timestamp =
        zeroTimeLine.Timestamp.sec * 1000000000 + (zeroTimeLine.Timestamp.nsec.val : Int) := by
  rintro ⟨cl, hcl, ht⟩
  simp only [convertLogLine, Option.some.injEq] at hcl
  subst hcl
  revert ht
  decide

/-! ## The relay loop and the frames -/

theorem pipes.runCalls_Stopped (calls : List pipes.LoopCall) :
    pipes.runCalls pipes.LoopState.Stopped calls = pipes.LoopState.Stopped := by
  induction calls with
  | nil => rfl
  | cons c rest ih => cases c <;> simpa [pipes.runCalls, pipes.StartLoop, pipes.StopLoop] using ih

/-- C19: `StartLoop` returns no error only from `Idle`, where it moves to
`Running`; on a `Running` loop and on a `Stopped` loop it returns
`ErrInvalidOperationGivenPartLoopState` and leaves the state as it was, as in
the two tests; and after any sequence of `StartLoop` and `StopLoop` calls a
`Stopped` loop is still `Stopped`, never `Running` again. -/
theorem StartLoop_only_from_Idle :
    (∀ s, (pipes.StartLoop s).1 = none ↔ s = pipes.LoopState.Idle) ∧
    pipes.StartLoop pipes.LoopState.Idle = (none, pipes.LoopState.Running) ∧
    pipes.StartLoop pipes.LoopState.Running =
      (some pipes.Error.ErrInvalidOperationGivenPartLoopState, pipes.LoopState.Running) ∧
    pipes.StartLoop pipes.LoopState.Stopped =
      (some pipes.Error.ErrInvalidOperationGivenPartLoopState, pipes.LoopState.Stopped) ∧
    (pipes.StartLoop (pipes.StartLoop pipes.NewChildPart).2).1 =
      some pipes.Error.ErrInvalidOperationGivenPartLoopState ∧
    (pipes.StartLoop (pipes.StopLoop (pipes.StartLoop pipes.NewChildPart).2)).1 =
      some pipes.Error.ErrInvalidOperationGivenPartLoopState ∧
    (∀ calls, pipes.runCalls pipes.LoopState.Stopped calls = pipes.LoopState.Stopped ∧
      pipes.runCalls pipes.LoopState.Stopped calls ≠ pipes.LoopState.Running) := by
  refine ⟨?_, rfl, rfl, rfl, rfl, rfl, ?_⟩
  · intro s
    cases s <;> simp [pipes.StartLoop]
  · intro calls
    rw [pipes.runCalls_Stopped]
    exact ⟨rfl, by decide⟩

theorem pipes.readFrame_payload (delim : Byte) (rest : List Byte) :
    ∀ payload : List Byte, delim ∉ payload →
      pipes.readFrame delim (payload ++ delim :: rest) = some (payload, rest) := by
  intro payload
  induction payload with
  | nil => intro _; simp [pipes.readFrame]
  | cons c p ih =>
    intro h
    have hc : c ≠ delim := fun e => h (by simp [e])
    have hp : delim ∉ p := fun e => h (by simp [e])
    simp [pipes.readFrame, hc, ih hp]

/-- C20: on a frame whose payload the marshaller rejects, `ReadLogLine`
returns a failure and no value, and the text of the failure contains the raw
payload; on a frame whose payload the marshaller accepts it returns the value
that the marshaller decodes, so a value that was encoded to a frame comes
back with the fields it had. -/
theorem ReadLogLine_frame {α : Type} (m : pipes.Marshaller α) (delim : Byte)
    (payload rest : List Byte) (hd : delim ∉ payload) :
    (m.Unmarshal payload = none →
      ∃ e, (pipes.ReadLogLine m delim (payload ++ delim :: rest)).1 = Except.error e ∧
        payload <:+: e.Error) ∧
    (∀ v, m.Unmarshal payload = some v →
      (pipes.ReadLogLine m delim (payload ++ delim :: rest)).1 = Except.ok v) ∧
    (∀ v, m.Marshal v = payload → m.Unmarshal (m.Marshal v) = some v →
      (pipes.ReadLogLine m delim (pipes.Encode m delim v ++ rest)).1 = Except.ok v) := by
  have hread := pipes.readFrame_payload delim rest payload hd
  refine ⟨?_, ?_, ?_⟩
  · intro hbad
    refine ⟨pipes.FrameError.MalformedFrame payload, ?_, ?_⟩
    · simp [pipes.ReadLogLine, hread, hbad]
    · exact (List.suffix_append _ _).isInfix
  · intro v hv
    simp [pipes.ReadLogLine, hread, hv]
  · intro v hm hv
    rw [hm] at hv
    simp [pipes.ReadLogLine, pipes.Encode, hm, hread, hv]

/-- Witness of C20: the payload `bad json`, framed by a line feed, and the toy
marshaller, which rejects it. -/
theorem ReadLogLine_frame_witness :
    (0x0A : Byte) ∉ lit "bad json" ∧
    (pipes.stubMarshaller.Unmarshal (lit "bad json") = none →
      ∃ e, (pipes.ReadLogLine pipes.stubMarshaller 0x0A (lit "bad json" ++ 0x0A :: [])).1 =
          Except.error e ∧
        lit "bad json" <:+: e.Error) ∧
    (∀ v, pipes.stubMarshaller.Unmarshal (lit "bad json") = some v →
      (pipes.ReadLogLine pipes.stubMarshaller 0x0A (lit "bad json" ++ 0x0A :: [])).1 =
        Except.ok v) ∧
    (∀ v, pipes.stubMarshaller.Marshal v = lit "bad json" →
      pipes.stubMarshaller.Unmarshal (pipes.stubMarshaller.Marshal v) = some v →
      (pipes.ReadLogLine pipes.stubMarshaller 0x0A
        (pipes.Encode pipes.stubMarshaller 0x0A v ++ [])).1 = Except.ok v) :=
  ⟨by decide, ReadLogLine_frame pipes.stubMarshaller 0x0A (lit "bad json") [] (by decide)⟩

/-! ## The invariant of the two lists -/

theorem AddObserver_keeps_wellFormed {σ : Type} (env : Env σ) (los : logOutputSubject) (w : Writer)
    (format : Formatter) (h : los.WellFormed) : (AddObserver env los w format).2.WellFormed := by
  cases he : (AddObserver env los w format).1 with
  | none =>
    obtain ⟨hw, hf, hstep⟩ := AddObserver.ok_iff env los w format he
    rw [hstep]
    refine ⟨by simp [h.1], ?_, ?_⟩
    · simp only [List.mem_append, List.mem_singleton, not_or]
      exact ⟨h.2.1, fun e => hw e.symm⟩
    · simp only [List.mem_append, List.mem_singleton, not_or]
      exact ⟨h.2.2, fun e => hf e.symm⟩
  | some e =>
    have hsame : (AddObserver env los w format).2 = los := by
      cases w with
      | none => simp [AddObserver]
      | some w =>
        cases format with
        | none => simp [AddObserver, check.IfNil]
        | some f =>
          cases hf : env.formatterIsInterfaceNil f
          · simp [AddObserver, check.IfNil, hf] at he
          · simp [AddObserver, check.IfNil, hf]
    rw [hsame]; exact h

theorem cut_not_mem {α : Type} (l : List α) (a : α) (i : Nat) (h : a ∉ l) :
    a ∉ l.take i ++ l.drop (i + 1) := by
  intro hm
  rcases List.mem_append.mp hm with e | e
  · exact h (List.mem_of_mem_take e)
  · exact h (List.mem_of_mem_drop e)

theorem RemoveObserver_keeps_wellFormed (los : logOutputSubject) (w : Writer) (h : los.WellFormed) :
    (∃ e los1, RemoveObserver los w = Except.ok (e, los1) ∧ los1.WellFormed) ∨
    ∃ t, RemoveObserver los w = Except.error (RuntimePanic.uncomparable t, los) := by
  cases w with
  | none => exact Or.inl ⟨_, los, rfl, h⟩
  | some v =>
    have hcases := RemoveObserver.loop_cases los (some v) h.1 los.writers 0 (by simp)
    have hdef : RemoveObserver los (some v) = RemoveObserver.loop los (some v) los.writers 0 := by
      simp [RemoveObserver]
    rw [hdef]
    rcases hcases with h1 | ⟨j, hj, h2⟩ | ⟨t, h3⟩
    · exact Or.inl ⟨_, los, h1, h⟩
    · refine Or.inl ⟨_, _, h2, ?_, cut_not_mem _ _ _ h.2.1, cut_not_mem _ _ _ h.2.2⟩
      have := h.1
      simp only [List.length_append, List.length_take, List.length_drop]
      omega
    · exact Or.inr ⟨t, h3⟩

theorem applyOp_keeps_wellFormed {σ : Type} (env : Env σ) (los : logOutputSubject) (s : σ) (op : Op)
    (h : los.WellFormed) : (applyOp env (los, s) op).1.WellFormed := by
  cases op with
  | add w format => exact AddObserver_keeps_wellFormed env los w format h
  | remove w =>
    rcases RemoveObserver_keeps_wellFormed los w h with ⟨e, los1, hrun, hwf⟩ | ⟨t, hrun⟩
    · simp only [applyOp, hrun]; exact hwf
    · simp only [applyOp, hrun]; exact h
  | clear => simp [applyOp, ClearObservers, logOutputSubject.WellFormed]
  | output line =>
    simp only [applyOp]
    cases Output env los line s <;> exact h

theorem runOps_keeps_wellFormed {σ : Type} (env : Env σ) (ops : List Op) :
    ∀ (st : logOutputSubject × σ), st.1.WellFormed → (runOps env st ops).1.WellFormed := by
  induction ops with
  | nil => intro st h; exact h
  | cons op rest ih =>
    intro st h
    show (runOps env (applyOp env st op) rest).1.WellFormed
    exact ih _ (applyOp_keeps_wellFormed env st.1 st.2 op h)

/-- C21: after every sequence of `AddObserver`, `RemoveObserver`,
`ClearObservers` and `Output` calls on the new subject, whatever their
arguments and however they end, with an error, without one or with a panic,
the writers list and the formatters list have the same length; so
`formatters[i]` is there for every `i` below `len(writers)`: an `Output` call
on that subject never panics on an index, only when a formatter or a writer
panics, and a `RemoveObserver` call never panics on a slice bound, only at
the comparison of writers, before it has changed the subject. -/
theorem reachable_lists_equal_length {σ : Type} (env : Env σ) (ops : List Op) (s : σ) :
    (runOps env (NewLogOutputSubject, s) ops).1.writers.length =
      (runOps env (NewLogOutputSubject, s) ops).1.formatters.length ∧
    (∀ i, i < (runOps env (NewLogOutputSubject, s) ops).1.writers.length →
      ∃ format, (runOps env (NewLogOutputSubject, s) ops).1.formatters[i]? = some format) ∧
    (∀ line s2 p e,
      Output env (runOps env (NewLogOutputSubject, s) ops).1 line s2 = Except.error (p, e) →
      p = RuntimePanic.collaborator) ∧
    (∀ w p los1,
      RemoveObserver (runOps env (NewLogOutputSubject, s) ops).1 w = Except.error (p, los1) →
      (∃ t, p = RuntimePanic.uncomparable t) ∧
        los1 = (runOps env (NewLogOutputSubject, s) ops).1) := by
  have hwf : (runOps env (NewLogOutputSubject, s) ops).1.WellFormed :=
    runOps_keeps_wellFormed env ops (NewLogOutputSubject, s)
      (show NewLogOutputSubject.WellFormed by decide)
  refine ⟨hwf.1, ?_, ?_, ?_⟩
  · intro i hi
    exact ⟨_, List.getElem?_eq_getElem (by rw [← hwf.1]; exact hi)⟩
  · intro line s2 p e hrun
    exact Output.only_collaborator_panics env _ _ hwf _ (Nat.le_refl _) (s2, []) p e hrun
  · intro w p los1 hrun
    rcases RemoveObserver_keeps_wellFormed _ w hwf with ⟨e, los2, hok, _⟩ | ⟨t, herr⟩
    · rw [hok] at hrun; cases hrun
    · rw [herr] at hrun
      have := Except.error.inj hrun
      exact ⟨⟨t, (Prod.mk.inj this).1.symm⟩, (Prod.mk.inj this).2.symm⟩

/-! ## Safe ASCII, both directions -/

theorem isASCII_hex (b : List Byte) : isASCII (hex.EncodeToString b) = true := by
  rw [isASCII_iff]
  intro c hc
  have := hex.EncodeToString_chars b c hc
  omega

set_option maxRecDepth 20000 in
/-- C22: `isASCII` is true for every string all of whose bytes are printable
ASCII (0x20 to 0x7E), tab, carriage return or line feed; the empty string and
the table of several lines of `TestIsASCII` are such strings. -/
theorem isASCII_accepts_printable_text (s : GoString)
    (h : ∀ c ∈ s, (0x20 ≤ c.val ∧ c.val ≤ 0x7E) ∨ c.val = 0x09 ∨ c.val = 0x0D ∨ c.val = 0x0A) :
    isASCII s = true ∧ isASCII [] = true ∧ isASCII (lit tableString) = true := by
  refine ⟨?_, rfl, by decide⟩
  rw [isASCII_iff]
  intro c hc
  have := h c hc
  omega

set_option maxRecDepth 20000 in
/-- Witness of C22: a text with letters, digits, signs, a tab and a line feed. -/
theorem isASCII_accepts_printable_text_witness :
    (∀ c ∈ lit "ascii TEXT.,/?@~#$%^&*()_+[] 1234 \t\n",
      (0x20 ≤ c.val ∧ c.val ≤ 0x7E) ∨ c.val = 0x09 ∨ c.val = 0x0D ∨ c.val = 0x0A) ∧
    isASCII (lit "ascii TEXT.,/?@~#$%^&*()_+[] 1234 \t\n") = true ∧ isASCII [] = true ∧
      isASCII (lit tableString) = true :=
  ⟨by decide, isASCII_accepts_printable_text (lit "ascii TEXT.,/?@~#$%^&*()_+[] 1234 \t\n")
    (by decide)⟩

/-- C23: `isASCII` is false for every string that holds, at any position, a byte
from 0x80 on or a byte below 0x20 other than tab, line feed and carriage
return; so the string of the bytes 0, 5, 17, 19, 127 does not pass and, with
the default handler, is rendered as `000511137f`. -/
theorem isASCII_rejects_high_and_control_bytes (s : GoString)
    (h : ∃ c ∈ s, 0x80 ≤ c.val ∨ (c.val < 0x20 ∧ c.val ≠ 0x09 ∧ c.val ≠ 0x0A ∧ c.val ≠ 0x0D)) :
    isASCII s = false ∧ isASCII uglyBytes = false ∧
      convertArg hex.EncodeToString (Arg.string uglyBytes) = lit "000511137f" := by
  refine ⟨?_, by decide, by decide⟩
  rw [← Bool.not_eq_true, isASCII_iff]
  intro hall
  obtain ⟨c, hc, hbad⟩ := h
  have := hall c hc
  omega

/-- Witness of C23: the string of the bytes 0, 5, 17, 19, 127. -/
theorem isASCII_rejects_high_and_control_bytes_witness :
    (∃ c ∈ uglyBytes,
      0x80 ≤ c.val ∨ (c.val < 0x20 ∧ c.val ≠ 0x09 ∧ c.val ≠ 0x0A ∧ c.val ≠ 0x0D)) ∧
    isASCII uglyBytes = false ∧ isASCII uglyBytes = false ∧
      convertArg hex.EncodeToString (Arg.string uglyBytes) = lit "000511137f" :=
  ⟨by decide, isASCII_rejects_high_and_control_bytes uglyBytes (by decide)⟩

/-- C24: with the default handler the rendering of every string and of every
byte slice passes `isASCII`, and rendering a string twice gives what rendering
it once gives; the same holds for every handler whose results pass
`isASCII`. -/
theorem convertStringIfNotASCII_idempotent (s b : List Byte) :
    isASCII (convertArg hex.EncodeToString (Arg.string s)) = true ∧
    isASCII (convertArg hex.EncodeToString (Arg.bytes b)) = true ∧
    convertStringIfNotASCII hex.EncodeToString (convertStringIfNotASCII hex.EncodeToString s) =
      convertStringIfNotASCII hex.EncodeToString s ∧
    ∀ byteHandler : List Byte → GoString, (∀ x, isASCII (byteHandler x) = true) →
      convertStringIfNotASCII byteHandler (convertStringIfNotASCII byteHandler s) =
        convertStringIfNotASCII byteHandler s := by
  have hgen : ∀ byteHandler : List Byte → GoString, (∀ x, isASCII (byteHandler x) = true) →
      isASCII (convertStringIfNotASCII byteHandler s) = true ∧
      convertStringIfNotASCII byteHandler (convertStringIfNotASCII byteHandler s) =
        convertStringIfNotASCII byteHandler s := by
    intro byteHandler hh
    have hpass : isASCII (convertStringIfNotASCII byteHandler s) = true := by
      unfold convertStringIfNotASCII
      by_cases hs : isASCII s = true
      · rw [if_pos hs]; exact hs
      · rw [if_neg hs]; exact hh s
    refine ⟨hpass, ?_⟩
    show (if isASCII (convertStringIfNotASCII byteHandler s) = true
      then convertStringIfNotASCII byteHandler s
      else byteHandler (convertStringIfNotASCII byteHandler s)) = _
    rw [if_pos hpass]
  exact ⟨(hgen _ isASCII_hex).1, isASCII_hex b, (hgen _ isASCII_hex).2, fun bh hh => (hgen bh hh).2⟩

end logger
